import Mathlib

/-!
The SCP negotiation and wire codec of nrolans/service.

A shallow embedding of `scp/handler_interface.go` and of the per-channel part of
`sshHandler` in `scp/service.go`.

Conventions of the embedding

* A Go `string` or `[]byte` is the list of its bytes, each byte a natural number
  below 256 (`GoString`).  `len` is `List.length`, `s[i:]` is `List.drop`.
* A Go `int` (the type under `Parameter`) is kept as its 64-bit two's-complement
  bit pattern, a natural number below `2^64`; `+=` wraps modulo `2^64`.
* A call that panics in Go (index out of range) is the outcome `Res.fault`.
* The handler callbacks are parameters of the model, and every invocation is
  recorded in the result so that statements can count them.
-/

namespace Scp

/-! ## Strings -/

/-- A Go string: its bytes. -/
abbrev GoString := List Nat

/-- The bytes of an ASCII literal. -/
def ascii (s : String) : GoString := s.toList.map Char.toNat

/-- Outcome of a Go call that may return an error value or panic. -/
inductive Res (ε α : Type) where
  | ok (a : α)
  | error (e : ε)
  | fault
  deriving DecidableEq, Repr

/-- Attach one byte to the first field of a split. -/
def consHead (b : Nat) : List GoString → List GoString
  | [] => [[b]]
  | t :: ts => (b :: t) :: ts

/-- The function `strings.Split(s, " ")` for a one-byte separator: cut at every
separator; the empty string gives one empty field. -/
def Split (sep : Nat) : GoString → List GoString
  | [] => [[]]
  | b :: rest => if b = sep then [] :: Split sep rest else consHead b (Split sep rest)

/-- The function `strings.SplitN(s, " ", n)` for a one-byte separator: at most `n`
fields, the last one being the unsplit remainder; `n = 0` gives no field. -/
def SplitN (sep : Nat) : GoString → Nat → List GoString
  | _, 0 => []
  | s, 1 => [s]
  | [], _ + 2 => [[]]
  | b :: rest, n + 2 =>
    if b = sep then [] :: SplitN sep rest (n + 1) else consHead b (SplitN sep rest (n + 2))

/-- The replacement rune U+FFFD produced for invalid UTF-8. -/
def RuneError : Nat := 0xFFFD

/-- The function `utf8.DecodeRuneInString` on a non-empty string: the first rune
and its width in bytes (an invalid or truncated sequence is `RuneError`, width 1). -/
def decodeRune (s : GoString) : Nat × Nat :=
  match s with
  | [] => (RuneError, 0)
  | s0 :: t =>
    if s0 < 0x80 then (s0, 1)
    else if s0 < 0xC2 ∨ 0xF4 < s0 then (RuneError, 1)
    else
      let sz := if s0 < 0xE0 then 2 else if s0 < 0xF0 then 3 else 4
      let lo := if s0 = 0xE0 then 0xA0 else if s0 = 0xF0 then 0x90 else 0x80
      let hi := if s0 = 0xED then 0x9F else if s0 = 0xF4 then 0x8F else 0xBF
      if s.length < sz then (RuneError, 1)
      else
        match t with
        | [] => (RuneError, 1)
        | s1 :: t1 =>
          if s1 < lo ∨ hi < s1 then (RuneError, 1)
          else if sz ≤ 2 then ((s0 % 0x20) * 0x40 + s1 % 0x40, 2)
          else
            match t1 with
            | [] => (RuneError, 1)
            | s2 :: t2 =>
              if s2 < 0x80 ∨ 0xBF < s2 then (RuneError, 1)
              else if sz ≤ 3 then ((s0 % 0x10) * 0x1000 + (s1 % 0x40) * 0x40 + s2 % 0x40, 3)
              else
                match t2 with
                | [] => (RuneError, 1)
                | s3 :: _ =>
                  if s3 < 0x80 ∨ 0xBF < s3 then (RuneError, 1)
                  else ((s0 % 0x08) * 0x40000 + (s1 % 0x40) * 0x1000
                          + (s2 % 0x40) * 0x40 + s3 % 0x40, 4)

/-- The runes a `for _, r := range s` loop visits; the first argument bounds the
number of iterations and `s.length` is always enough, every rune being at least
one byte wide. -/
def runesAux : Nat → GoString → List Nat
  | 0, _ => []
  | _ + 1, [] => []
  | k + 1, b :: t =>
    (decodeRune (b :: t)).1 :: runesAux k ((b :: t).drop (decodeRune (b :: t)).2)

/-- The runes of a string, in order. -/
def runes (s : GoString) : List Nat := runesAux s.length s

/-- The function `unicode.ToLower` as far as the flag switch can observe it: the
ASCII capitals map to their small letters.  Outside ASCII the Unicode mapping
reaches only the ASCII letters i (from U+0130) and k (from U+212A), neither of
which is a flag letter, so every other rune is left as it is. -/
def toLowerRune (r : Nat) : Nat := if 65 ≤ r ∧ r ≤ 90 then r + 32 else r

/-! ## Transfer parameters (`handler_interface.go`) -/

/-- The type `Parameter` (a Go `int`), as a 64-bit pattern. -/
abbrev Parameter := Nat

/-- Wrap-around of 64-bit addition. -/
def wrap64 (x : Nat) : Nat := x % 2 ^ 64

def Verbose : Parameter := 1
def Directory : Parameter := 2
def Sink : Parameter := 4
def Source : Parameter := 8
def Recursive : Parameter := 16

/-- One iteration of the loop of `Parameter.Parse`: the switch on the lower-cased
rune, each recognised letter ADDING its constant to the receiver. -/
def parseStep (p : Parameter) (param : Nat) : Parameter :=
  if toLowerRune param = 100 then wrap64 (p + Directory)       -- "d"
  else if toLowerRune param = 102 then wrap64 (p + Source)     -- "f"
  else if toLowerRune param = 114 then wrap64 (p + Recursive)  -- "r"
  else if toLowerRune param = 116 then wrap64 (p + Sink)       -- "t"
  else if toLowerRune param = 118 then wrap64 (p + Verbose)    -- "v"
  else p

/-- The method `(*Parameter).Parse`: the receiver after the loop over the runes. -/
def Parameter.Parse (p : Parameter) (params : GoString) : Parameter :=
  (runes params).foldl parseStep p

/-- The bitwise union of the bits of the recognised letters that occur in a flag
string, as the specification words the result of parsing. -/
def flagUnion (params : GoString) : Parameter :=
  (if 100 ∈ params ∨ 68 ∈ params then Directory else 0)
    ||| (if 102 ∈ params ∨ 70 ∈ params then Source else 0)
    ||| (if 114 ∈ params ∨ 82 ∈ params then Recursive else 0)
    ||| (if 116 ∈ params ∨ 84 ∈ params then Sink else 0)
    ||| (if 118 ∈ params ∨ 86 ∈ params then Verbose else 0)

/-! ## Status replies (`handler_interface.go`) -/

/-- The type `StatusCode`: a byte. -/
abbrev StatusCode := Nat

def OK : StatusCode := 0
def Warning : StatusCode := 1
def Fatal : StatusCode := 2

/-- The struct `Status`. -/
structure Status where
  Code : StatusCode
  Message : GoString
  deriving DecidableEq, Repr

/-- The method `Status.Bytes`: the code byte is written to an empty buffer, then
the message and a newline unless the code is `OK`. -/
def Status.Bytes (s : Status) : List Nat :=
  let buffer : List Nat := []
  let buffer := buffer ++ [s.Code]
  if s.Code ≠ OK then (buffer ++ s.Message) ++ [10] else buffer

/-! ## Numerals (`strconv`, base 10) -/

/-- The two error kinds of `strconv`: a malformed numeral and a value out of range. -/
inductive NumError where
  | invalid
  | outOfRange
  deriving DecidableEq, Repr

/-- The smallest number whose tenfold exceeds the largest `uint64`. -/
def cutoff10 : Nat := (2 ^ 64 - 1) / 10 + 1

/-- The digit loop of `strconv.ParseUint` in base 10 with accumulator `n`: a byte
that is not a decimal digit (a letter is a digit of value ten or more, hence not
below the base) is a malformed numeral; overflow of `uint64` or of `maxVal` is a
range error. -/
def parseUintLoop (maxVal : Nat) : GoString → Nat → Except NumError Nat
  | [], n => .ok n
  | c :: cs, n =>
    if 48 ≤ c ∧ c ≤ 57 then
      if cutoff10 ≤ n then .error .outOfRange
      else if 2 ^ 64 ≤ n * 10 + (c - 48) ∨ maxVal < n * 10 + (c - 48) then .error .outOfRange
      else parseUintLoop maxVal cs (n * 10 + (c - 48))
    else .error .invalid

/-- The function `strconv.ParseUint(s, 10, bitSize)`. -/
def ParseUint (s : GoString) (bitSize : Nat) : Except NumError Nat :=
  if s = [] then .error .invalid else parseUintLoop (2 ^ bitSize - 1) s 0

/-- The function `strconv.ParseInt(s, 10, bitSize)`: an optional sign, then
`ParseUint`, then the range check against `2^(bitSize-1)`. -/
def ParseInt (s : GoString) (bitSize : Nat) : Except NumError Int :=
  match s with
  | [] => .error .invalid
  | c :: t =>
    let neg : Bool := c = 45
    let digits := if c = 43 ∨ c = 45 then t else c :: t
    match ParseUint digits bitSize with
    | .error e => .error e
    | .ok un =>
      if neg = false ∧ 2 ^ (bitSize - 1) ≤ un then .error .outOfRange
      else if neg = true ∧ 2 ^ (bitSize - 1) < un then .error .outOfRange
      else .ok (if neg then -(un : Int) else (un : Int))

/-! ## The copy directive (`handler_interface.go`) -/

/-- The error values `parseSCPCopy` can return. -/
inductive Error where
  | scpParsing (line : GoString)
  | parseUint (e : NumError)
  | parseInt (e : NumError)
  deriving DecidableEq, Repr

/-- The function `parseSCPCopy`: mode, length and file name of a `C` line.  The
token list is indexed as in the source, an index past its end being a fault. -/
def parseSCPCopy (line : GoString) : Res Error (Nat × Int × GoString) :=
  let tokens := SplitN 32 line 3
  match tokens[0]? with
  | none => .fault
  | some t0 =>
    if t0.length ≠ 5 ∨ t0.head? ≠ some 67 then .error (.scpParsing line)
    else
      match ParseUint ((t0.drop 1).take 4) 32 with
      | .error e => .error (.parseUint e)
      | .ok modeInt =>
        match tokens[1]? with
        | none => .fault
        | some t1 =>
          match ParseInt t1 64 with
          | .error e => .error (.parseInt e)
          | .ok length =>
            match tokens[2]? with
            | none => .fault
            | some t2 => .ok (modeInt, length, t2)

/-! ## Negotiation (`service.go`, the request goroutine of `sshHandler`) -/

/-- The type `TransferStatus`. -/
inductive TransferStatus where
  | Wait
  | Ready
  | Refused
  deriving DecidableEq, Repr

/-- A channel request: its type and payload. -/
structure Request where
  Typ : GoString
  Payload : List Nat
  deriving DecidableEq, Repr

/-- The variables shared by the two activities of one channel, with the
goroutine-local flag `execReceived`. -/
structure ChanState where
  params : Parameter
  pattern : GoString
  transferStatus : TransferStatus
  execReceived : Bool
  deriving DecidableEq, Repr

/-- A channel right after it has been accepted. -/
def fresh : ChanState :=
  { params := 0, pattern := [], transferStatus := .Wait, execReceived := false }

/-- What handling one request produced: the variables afterwards, the argument of
`req.Reply`, the invocations of `SinkRequest` it made, and whether the condition
was signalled. -/
structure StepResult where
  state : ChanState
  reply : Bool
  calls : List (Parameter × GoString)
  signal : Bool
  deriving DecidableEq, Repr

/-- The tail of the loop body: reply, then signal if a decision has been made. -/
def finish (st : ChanState) (ok : Bool) (calls : List (Parameter × GoString)) : StepResult :=
  { state := st, reply := ok, calls := calls, signal := decide (st.transferStatus ≠ .Wait) }

/-- The loop over `tokens[1:]`: empty tokens are skipped, a token starting with
a dash and longer than one byte is parsed into `params`, and any other token
becomes the pattern while the pattern is still empty. -/
def scanTokens : List GoString → Parameter × GoString → Parameter × GoString
  | [], acc => acc
  | token :: rest, acc =>
    if token.length = 0 then scanTokens rest acc
    else if token.head? = some 45 ∧ 1 < token.length then
      scanTokens rest (Parameter.Parse acc.1 (token.drop 1), acc.2)
    else if acc.2 = [] then scanTokens rest (acc.1, token)
    else scanTokens rest acc

/-- The sanity checks and the sink or source decision that follow the token loop. -/
def decideTransfer (SinkRequest : Parameter → GoString → Bool) (st : ChanState) : StepResult :=
  if st.pattern = [] then finish { st with transferStatus := .Refused } false []
  else if 0 < st.params &&& Sink ∧ 0 < st.params &&& Source then
    finish { st with transferStatus := .Refused } false []
  else if st.params &&& Sink = 0 ∧ st.params &&& Source = 0 then
    finish { st with transferStatus := .Refused } false []
  else if st.params &&& Sink = Sink then
    if SinkRequest st.params st.pattern then
      finish { st with transferStatus := .Ready, execReceived := true } true
        [(st.params, st.pattern)]
    else
      finish { st with transferStatus := .Refused, execReceived := true } false
        [(st.params, st.pattern)]
  else finish { st with transferStatus := .Refused, execReceived := true } false []

/-- One iteration of the request loop for a received request; `none` is a panic
(slicing the payload or indexing the tokens out of range). -/
def handleRequest (SinkRequest : Parameter → GoString → Bool) (st : ChanState)
    (req : Request) : Option StepResult :=
  if req.Typ = ascii "exec" then
    if st.execReceived then some (finish st false [])
    else if req.Payload.length < 4 then none
    else
      match Split 32 (req.Payload.drop 4) with
      | [] => none
      | t0 :: rest =>
        if t0 ≠ ascii "scp" then some (finish st false [])
        else
          some (decideTransfer SinkRequest
            { st with params := (scanTokens rest (st.params, st.pattern)).1,
                      pattern := (scanTokens rest (st.params, st.pattern)).2 })
  else if req.Typ = ascii "env" then some (finish st true [])
  else some (finish st false [])

/-- The timer case of the request loop: the status becomes `Refused`, whatever it
was, and the condition is signalled. -/
def handleDeadline (st : ChanState) : StepResult :=
  finish { st with transferStatus := .Refused } false []

/-- The request loop over a sequence of requests, each with the answer the handler
would give at that moment; the results of the iterations in order, `none` if one of
them panics. -/
def runRequests (st : ChanState) :
    List ((Parameter → GoString → Bool) × Request) → Option (List StepResult)
  | [] => some []
  | (sink, req) :: rest =>
    match handleRequest sink st req with
    | none => none
    | some r =>
      match runRequests r.state rest with
      | none => none
      | some rs => some (r :: rs)

/-! ## The transfer (`service.go`, the main flow of `sshHandler` once `Ready`) -/

/-- The callbacks of `SinkHandler` used after negotiation.  `FileCopy` is given
the bytes its bounded reader can yield. -/
structure FileHandler where
  FileRequest : Nat → Int → GoString → Status
  FileCopy : List Nat → Status

/-- What the main flow does to the channel and the handler, in order. -/
inductive TransferEvent where
  | write (bytes : List Nat)
  | fileRequest (mode : Nat) (size : Int) (filename : GoString)
  | fileCopy (bytes : List Nat)
  | exitStatus (status : Nat)
  | close
  deriving DecidableEq, Repr

/-- The bytes of a chunk up to and including the first newline. -/
def throughNewline : List Nat → List Nat
  | [] => []
  | b :: t => if b = 10 then [b] else b :: throughNewline t

/-- The call `databuf.ReadString(10)` on a buffered reader over the channel, the
channel being the list of chunks its successive reads deliver: the reader pulls
whole chunks until one holds a newline; the line is everything up to and including
that newline, and what follows it in the same chunk stays in the buffer.  The
result is the line and the chunks not yet read, or `none` when the channel ends
before a newline. -/
def ReadString : List (List Nat) → List Nat → Option (GoString × List (List Nat))
  | [], _ => none
  | c :: cs, acc =>
    if 10 ∈ c then some (acc ++ throughNewline c, cs) else ReadString cs (acc ++ c)

/-- The reader `io.LimitReader(channel, length)` read to its end: the first
`length` bytes the channel still delivers (none if `length` is not positive). -/
def limitReader (chunks : List (List Nat)) (length : Int) : List Nat :=
  chunks.flatten.take length.toNat

/-- The main flow after the status became `Ready`: the go-ahead byte, one control
record, and for a `C` record the two handler calls.  A read or parse error abandons
the channel; `none` is a panic. -/
def transfer (h : FileHandler) (chunks : List (List Nat)) : Option (List TransferEvent) :=
  match ReadString chunks [] with
  | none => some [.write [0]]
  | some (line, later) =>
    match line with
    | [] => none
    | l0 :: _ =>
      if l0 = 67 then
        match parseSCPCopy line with
        | .fault => none
        | .error _ => some [.write [0]]
        | .ok (mode, length, filename) =>
          let status := h.FileRequest mode length filename
          if status.Code = OK then
            some [.write [0], .fileRequest mode length filename, .write status.Bytes,
                  .fileCopy (limitReader later length),
                  .write (h.FileCopy (limitReader later length)).Bytes,
                  .exitStatus 0, .close]
          else
            some [.write [0], .fileRequest mode length filename, .write status.Bytes,
                  .exitStatus 0, .close]
      else some [.write [0], .exitStatus 0, .close]

/-! ## The encoder the round-trip law speaks of -/

/-- A number written as exactly four decimal digits. -/
def pad4 (p : Nat) : GoString :=
  [48 + p / 1000 % 10, 48 + p / 100 % 10, 48 + p / 10 % 10, 48 + p % 10]

/-- A natural number written in decimal, without sign or leading zeros. -/
def decimal (n : Nat) : GoString := (Nat.toDigits 10 n).map Char.toNat

/-- The control line for a permission, a length and a file name, without the
terminating newline. -/
def encodeCopy (p n : Nat) (f : GoString) : GoString :=
  [67] ++ pad4 p ++ [32] ++ decimal n ++ [32] ++ f

/-- The value of a run of decimal digit bytes read after the accumulator `acc`. -/
def digitsVal (l : GoString) (acc : Nat) : Nat :=
  l.foldl (fun a c => a * 10 + (c - 48)) acc

/-! ## Events of one channel -/

/-- What the request goroutine of one channel can wake up on: a request, given
with the answer `SinkRequest` would return at that moment, or the ten-second
timer. -/
inductive Event where
  | request (SinkRequest : Parameter → GoString → Bool) (req : Request)
  | deadline

/-- One iteration of the `select` loop; `none` is a panic.  For the timer no reply
is sent, the `reply` field of its result is `false`. -/
def handleEvent (st : ChanState) : Event → Option StepResult
  | .request sink req => handleRequest sink st req
  | .deadline => some (handleDeadline st)

/-- The `select` loop over a sequence of events: the results of its iterations in
order, up to the first iteration that panics, which ends the program. -/
def runEvents : ChanState → List Event → List StepResult
  | _, [] => []
  | st, e :: rest =>
    match handleEvent st e with
    | none => []
    | some r => r :: runEvents r.state rest

/-- All the invocations of `SinkRequest` made during a run, in order. -/
def allCalls (trace : List StepResult) : List (Parameter × GoString) :=
  (trace.map fun r => r.calls).flatten

/-- What a call of `SinkRequest` is passed when negotiation is sound: a non-empty
pattern and parameters with the `Sink` bit set and the `Source` bit clear. -/
def goodCall (c : Parameter × GoString) : Prop :=
  c.2 ≠ [] ∧ c.1 &&& Sink = Sink ∧ c.1 &&& Source = 0

/-! ## What the buffered reader takes off the channel -/

/-- The bytes of a chunk that follow its first newline. -/
def afterNewline : List Nat → List Nat
  | [] => []
  | b :: t => if b = 10 then t else afterNewline t

/-- The bytes that `databuf.ReadString(10)` has taken off the channel beyond the
line it returns: what follows the newline in the chunk that holds it.  They stay
in the buffer of `databuf`, which nothing reads afterwards. -/
def readAhead : List (List Nat) → List Nat
  | [] => []
  | c :: cs => if 10 ∈ c then afterNewline c else readAhead cs

/-! ## Reading a transfer trace -/

/-- The bytes written to the channel during a transfer, in order. -/
def written : List TransferEvent → List Nat
  | [] => []
  | .write bytes :: rest => bytes ++ written rest
  | _ :: rest => written rest

/-- The number of invocations of `FileCopy` during a transfer. -/
def copyCalls : List TransferEvent → Nat
  | [] => 0
  | .fileCopy _ :: rest => copyCalls rest + 1
  | _ :: rest => copyCalls rest

/-- The base-8 value of a run of digit bytes, which is how the specification
reads the permission field of a record. -/
def octalValue (digits : GoString) : Nat :=
  digits.foldl (fun a c => a * 8 + (c - 48)) 0

/-! ## The service lifecycle (`service.go` of the root package, `tcp/service.go`) -/

/-- A Go channel on which nothing is ever sent: the nil channel of a zero value,
a channel that has been made and is open, or a closed channel. -/
inductive Chan where
  | nil
  | live
  | closed
  deriving DecidableEq, Repr

/-- The builtin `close`: it closes a channel that is open and panics (`none`) on
a nil channel and on a channel already closed. -/
def closeChan : Chan → Option Chan
  | .live => some .closed
  | .nil => none
  | .closed => none

/-- The struct `BaseService`: the channel `Stopper` and the counter of the wait
group.  Its zero value has a nil `Stopper`. -/
structure BaseService where
  Stopper : Chan
  WaitGroup : Nat
  deriving DecidableEq, Repr

/-- The function `NewBaseService`: a channel made with `make` and a zero wait
group. -/
def NewBaseService : BaseService := { Stopper := .live, WaitGroup := 0 }

/-- How a call of `Stop` by itself ends: it returns, it is left waiting for the
wait group, or it panics. -/
inductive StopResult where
  | returned (s : BaseService)
  | waiting (s : BaseService)
  | panicked
  deriving DecidableEq, Repr

/-- The method `BaseService.Stop`: `close(s.Stopper)`, then `s.WaitGroup.Wait()`,
which returns once the counter is zero. -/
def BaseService.Stop (s : BaseService) : StopResult :=
  match closeChan s.Stopper with
  | none => .panicked
  | some c =>
    if s.WaitGroup = 0 then .returned { s with Stopper := c }
    else .waiting { s with Stopper := c }

/-- Where the goroutine that runs `TCPService.Serve` stands: at the `select` on
top of the loop, inside `AcceptTCP`, or returned. -/
inductive ServePC where
  | check
  | accepting
  | returned
  deriving DecidableEq, Repr

/-- A `TCPService` with its goroutines: the embedded `BaseService`, the place of
`Serve`, whether the listener has been closed, the number of handler goroutines
spawned and not yet finished, and the numbers of calls of `Stop` that are inside
`WaitGroup.Wait()` and that have returned. -/
structure TCPService where
  Base : BaseService
  serve : ServePC
  listenerClosed : Bool
  running : Nat
  stopsWaiting : Nat
  stopsReturned : Nat
  deriving DecidableEq, Repr

/-- The service of `NewTCPService` on which `Serve` has just been called. -/
def serving : TCPService :=
  { Base := NewBaseService, serve := .check, listenerClosed := false, running := 0,
    stopsWaiting := 0, stopsReturned := 0 }

/-- The atomic steps of `Serve`, of the handler goroutines and of `Stop`. -/
inductive Step where
  /-- The `select` of `Serve` on the stop channel, with its `default`. -/
  | serveCheck
  /-- The call `AcceptTCP` ends on its deadline or a temporary error. -/
  | acceptTimeout
  /-- The call `AcceptTCP` ends on another error. -/
  | acceptError
  /-- The call `AcceptTCP` returns a connection; `Add(1)` and `go`. -/
  | accept
  /-- A handler goroutine ends: `HandlerFunc` returns, then `Done()`. -/
  | handlerDone
  /-- A call of `Stop` executes `close(s.Stopper)`. -/
  | stopClose
  /-- A call of `Stop` inside `Wait()` finds the counter at zero and returns. -/
  | stopWait
  deriving DecidableEq, Repr

/-- What a step does in a state: the next state, nothing because the step cannot
be taken there, or a panic. -/
inductive StepOutcome where
  | next (s : TCPService)
  | disabled
  | panicked
  deriving DecidableEq, Repr

/-- One atomic step.  `Serve` returns at its check only on a closed stop channel,
closing the listener; a receive on a nil or open channel is not ready, so the
`default` case leads into `AcceptTCP`. -/
def step (s : TCPService) : Step → StepOutcome
  | .serveCheck =>
    if s.serve = .check then
      if s.Base.Stopper = .closed then .next { s with serve := .returned, listenerClosed := true }
      else .next { s with serve := .accepting }
    else .disabled
  | .acceptTimeout =>
    if s.serve = .accepting then .next { s with serve := .check } else .disabled
  | .acceptError =>
    if s.serve = .accepting then .next { s with serve := .returned } else .disabled
  | .accept =>
    if s.serve = .accepting then
      .next { s with Base := { s.Base with WaitGroup := s.Base.WaitGroup + 1 },
                     running := s.running + 1, serve := .check }
    else .disabled
  | .handlerDone =>
    if s.running = 0 then .disabled
    else if s.Base.WaitGroup = 0 then .panicked
    else .next { s with Base := { s.Base with WaitGroup := s.Base.WaitGroup - 1 },
                        running := s.running - 1 }
  | .stopClose =>
    match closeChan s.Base.Stopper with
    | none => .panicked
    | some c => .next { s with Base := { s.Base with Stopper := c },
                               stopsWaiting := s.stopsWaiting + 1 }
  | .stopWait =>
    if s.stopsWaiting = 0 then .disabled
    else if s.Base.WaitGroup = 0 then
      .next { s with stopsWaiting := s.stopsWaiting - 1, stopsReturned := s.stopsReturned + 1 }
    else .disabled

/-- The states an interleaving goes through, one per step, up to the first step
that cannot be taken or panics. -/
def runSteps : TCPService → List Step → List TCPService
  | _, [] => []
  | s, a :: rest =>
    match step s a with
    | .next s1 => s1 :: runSteps s1 rest
    | .disabled => []
    | .panicked => []

/-! ## Fixtures for the concrete runs -/

/-- A handler whose `SinkRequest` accepts every request. -/
def acceptAll : Parameter → GoString → Bool := fun _ _ => true

/-- An exec request for a short ASCII command line: the four-byte big-endian
length of the command, then the command. -/
def execRequest (cmd : String) : Request :=
  { Typ := ascii "exec", Payload := [0, 0, 0, cmd.length] ++ ascii cmd }

/-- An env request; its payload plays no role. -/
def envRequest : Request := { Typ := ascii "env", Payload := [] }

/-- The variables after the sink or source decision has been taken. -/
def decided (params : Parameter) (pattern : GoString) (status : TransferStatus) : ChanState :=
  { params := params, pattern := pattern, transferStatus := status, execReceived := true }

/-- A file handler that answers `OK` to both of its calls. -/
def okHandler : FileHandler :=
  { FileRequest := fun _ _ _ => { Code := OK, Message := [] },
    FileCopy := fun _ => { Code := OK, Message := [] } }

/-- A file handler that refuses every file with a warning. -/
def warnHandler : FileHandler :=
  { FileRequest := fun _ _ _ => { Code := Warning, Message := ascii "disk full" },
    FileCopy := fun _ => { Code := OK, Message := [] } }

/-! ## Lemmas on splitting -/

theorem Split_of_not_mem (sep : Nat) (s : GoString) (h : sep ∉ s) : Split sep s = [s] := by
  induction s with
  | nil => rfl
  | cons b t ih =>
    have hb : b ≠ sep := fun e => h (by simp [e])
    have ht : sep ∉ t := fun m => h (by simp [m])
    simp [Split, hb, ih ht, consHead]

theorem Split_append_sep (sep : Nat) (a rest : GoString) (h : sep ∉ a) :
    Split sep (a ++ sep :: rest) = a :: Split sep rest := by
  induction a with
  | nil => simp [Split]
  | cons b t ih =>
    have hb : b ≠ sep := fun e => h (by simp [e])
    have ht : sep ∉ t := fun m => h (by simp [m])
    simp [Split, hb, ih ht, consHead]

theorem SplitN_append_sep (sep : Nat) (a rest : GoString) (n : Nat) (h : sep ∉ a) :
    SplitN sep (a ++ sep :: rest) (n + 2) = a :: SplitN sep rest (n + 1) := by
  induction a with
  | nil => simp [SplitN]
  | cons b t ih =>
    have hb : b ≠ sep := fun e => h (by simp [e])
    have ht : sep ∉ t := fun m => h (by simp [m])
    simp [SplitN, hb, ih ht, consHead]

/-! ## Lemmas on numerals -/

theorem digitsVal_ge (l : GoString) (acc : Nat) : acc ≤ digitsVal l acc := by
  induction l generalizing acc with
  | nil => simp [digitsVal]
  | cons c cs ih =>
    have h := ih (acc * 10 + (c - 48))
    simp only [digitsVal, List.foldl_cons] at h ⊢
    omega

theorem digitsVal_append (l1 l2 : GoString) (acc : Nat) :
    digitsVal (l1 ++ l2) acc = digitsVal l2 (digitsVal l1 acc) := by
  simp [digitsVal, List.foldl_append]

/-- On a run of digit bytes whose value fits, the digit loop returns that value. -/
theorem parseUintLoop_digits (maxVal : Nat) (hmax : maxVal < 2 ^ 64) (l : GoString) (acc : Nat)
    (hd : ∀ c ∈ l, 48 ≤ c ∧ c ≤ 57) (hv : digitsVal l acc ≤ maxVal) :
    parseUintLoop maxVal l acc = .ok (digitsVal l acc) := by
  induction l generalizing acc with
  | nil => simp [parseUintLoop, digitsVal]
  | cons c cs ih =>
    have hc := hd c (by simp)
    have hv1 : digitsVal cs (acc * 10 + (c - 48)) ≤ maxVal := by
      simpa [digitsVal] using hv
    have hge := digitsVal_ge cs (acc * 10 + (c - 48))
    have hcut : ¬ cutoff10 ≤ acc := by
      have : cutoff10 = 1844674407370955162 := by decide
      omega
    have hov : ¬ (2 ^ 64 ≤ acc * 10 + (c - 48) ∨ maxVal < acc * 10 + (c - 48)) := by omega
    have hrec := ih (acc * 10 + (c - 48)) (fun x hx => hd x (by simp [hx])) hv1
    rw [parseUintLoop, if_pos hc, if_neg hcut, if_neg hov, hrec]
    simp [digitsVal]

theorem digitChar_toNat (k : Nat) (hk : k < 10) : (Nat.digitChar k).toNat = 48 + k := by
  interval_cases k <;> rfl

/-- The digits produced by the decimal printer: a non-empty run of digit bytes in
front of the accumulator, of value `n`. -/
theorem toDigitsCore_spec (fuel n : Nat) (ds : List Char) (h : n < fuel) :
    ∃ pre : List Char, Nat.toDigitsCore 10 fuel n ds = pre ++ ds ∧ pre ≠ [] ∧
      (∀ c ∈ pre.map Char.toNat, 48 ≤ c ∧ c ≤ 57) ∧ digitsVal (pre.map Char.toNat) 0 = n := by
  induction fuel generalizing n ds with
  | zero => omega
  | succ fuel ih =>
    have hm : n % 10 < 10 := Nat.mod_lt _ (by decide)
    by_cases h0 : n / 10 = 0
    · refine ⟨[Nat.digitChar (n % 10)], ?_, by simp, ?_, ?_⟩
      · simp [Nat.toDigitsCore, h0]
      · intro c hc
        simp only [List.map_cons, List.map_nil, List.mem_singleton] at hc
        rw [hc, digitChar_toNat _ hm]; omega
      · simp only [List.map_cons, List.map_nil, digitsVal, List.foldl_cons, List.foldl_nil]
        rw [digitChar_toNat _ hm]; omega
    · obtain ⟨pre, hpre, _, hdig, hval⟩ :=
        ih (n / 10) (Nat.digitChar (n % 10) :: ds) (by omega)
      refine ⟨pre ++ [Nat.digitChar (n % 10)], ?_, by simp, ?_, ?_⟩
      · simp [Nat.toDigitsCore, h0, hpre]
      · intro c hc
        simp only [List.map_append, List.map_cons, List.map_nil, List.mem_append,
          List.mem_singleton] at hc
        rcases hc with hc | hc
        · exact hdig c hc
        · rw [hc, digitChar_toNat _ hm]; omega
      · rw [List.map_append, digitsVal_append, hval]
        simp only [List.map_cons, List.map_nil, digitsVal, List.foldl_cons, List.foldl_nil]
        rw [digitChar_toNat _ hm]; omega

theorem decimal_spec (n : Nat) :
    decimal n ≠ [] ∧ (∀ c ∈ decimal n, 48 ≤ c ∧ c ≤ 57) ∧ digitsVal (decimal n) 0 = n := by
  obtain ⟨pre, hpre, hne, hdig, hval⟩ := toDigitsCore_spec (n + 1) n [] (by omega)
  have : decimal n = pre.map Char.toNat := by
    simp [decimal, Nat.toDigits, hpre]
  rw [this]
  exact ⟨by simpa using hne, hdig, hval⟩

/-- The unsigned parser reads back a decimal numeral that fits the bit size. -/
theorem ParseUint_decimal (n bitSize : Nat) (hb : bitSize ≤ 64) (hn : n < 2 ^ bitSize) :
    ParseUint (decimal n) bitSize = .ok n := by
  obtain ⟨hne, hdig, hval⟩ := decimal_spec n
  have hpow : 2 ^ bitSize ≤ 2 ^ 64 := Nat.pow_le_pow_right (by decide) hb
  have hpos : 0 < 2 ^ bitSize := Nat.pow_pos (by decide)
  have := parseUintLoop_digits (2 ^ bitSize - 1) (by omega) (decimal n) 0 hdig (by omega)
  rw [ParseUint, if_neg hne, this, hval]

/-- The signed parser reads back a decimal numeral below `2^63`. -/
theorem ParseInt_decimal (n : Nat) (hn : n < 2 ^ 63) : ParseInt (decimal n) 64 = .ok (n : Int) := by
  obtain ⟨hne, hdig, _⟩ := decimal_spec n
  have hu := ParseUint_decimal n 64 (le_refl _) (by omega)
  cases hdn : decimal n with
  | nil => exact absurd hdn hne
  | cons c t =>
    have hc := hdig c (by simp [hdn])
    have h43 : c ≠ 43 := by omega
    have h45 : c ≠ 45 := by omega
    rw [hdn] at hu
    simp only [ParseInt, h43, h45, or_self, if_false, hu, decide_False]
    simp
    omega

/-- The unsigned parser reads back four decimal digits. -/
theorem ParseUint_pad4 (p : Nat) (hp : p ≤ 9999) : ParseUint (pad4 p) 32 = .ok p := by
  have hv : digitsVal (pad4 p) 0 = p := by
    simp only [pad4, digitsVal, List.foldl_cons, List.foldl_nil]
    omega
  have hd : ∀ c ∈ pad4 p, 48 ≤ c ∧ c ≤ 57 := by
    intro c hc
    simp only [pad4, List.mem_cons, List.mem_singleton, List.not_mem_nil, or_false] at hc
    omega
  have := parseUintLoop_digits (2 ^ 32 - 1) (by decide) (pad4 p) 0 hd (by omega)
  rw [ParseUint, if_neg (by simp [pad4]), this, hv]

/-! ## Lemmas on the request loop -/

/-- Once `execReceived` is set, a request of any type leaves the variables as they
are and calls no handler; only an env request is replied with success. -/
theorem handleRequest_of_execReceived (sink : Parameter → GoString → Bool) (st : ChanState)
    (req : Request) (h : st.execReceived = true) :
    handleRequest sink st req = some (finish st (decide (req.Typ = ascii "env")) []) := by
  by_cases hx : req.Typ = ascii "exec"
  · have hne : ¬ (ascii "exec" = ascii "env") := by decide
    simp [handleRequest, hx, h, hne]
  · by_cases he : req.Typ = ascii "env"
    · have hne : ¬ (ascii "env" = ascii "exec") := by decide
      simp [handleRequest, he, hne]
    · simp [handleRequest, hx, he]

/-- A request that is not an exec request is replied and nothing else happens. -/
theorem handleRequest_of_not_exec (sink : Parameter → GoString → Bool) (st : ChanState)
    (req : Request) (hne : req.Typ ≠ ascii "exec") :
    handleRequest sink st req = some (finish st (decide (req.Typ = ascii "env")) []) := by
  by_cases he : req.Typ = ascii "env"
  · have hx : ¬ (ascii "env" = ascii "exec") := by decide
    simp [handleRequest, he, hx]
  · simp [handleRequest, hne, he]

/-- On variables that pass the three checks the decision step sets the
exec-received flag, in the sink branch and in the source branch alike, and the
status it leaves is `Ready` exactly for a sink request that `SinkRequest` accepts. -/
theorem decideTransfer_of_valid (sink : Parameter → GoString → Bool) (st : ChanState)
    (hpat : st.pattern ≠ [])
    (hboth : ¬ (0 < st.params &&& Sink ∧ 0 < st.params &&& Source))
    (hnone : ¬ (st.params &&& Sink = 0 ∧ st.params &&& Source = 0)) :
    (decideTransfer sink st).state.execReceived = true
      ∧ (decideTransfer sink st).state.transferStatus
          = (if st.params &&& Sink = Sink ∧ sink st.params st.pattern = true
             then .Ready else .Refused) := by
  unfold decideTransfer
  rw [if_neg hpat, if_neg hboth, if_neg hnone]
  by_cases h4 : st.params &&& Sink = Sink
  · by_cases h6 : sink st.params st.pattern = true
    · rw [if_pos h4, if_pos h6]; simp [finish, h4, h6]
    · rw [if_pos h4, if_neg h6]; simp [finish, h4, h6]
  · rw [if_neg h4]; simp [finish, h4]

/-! ## Claims on parameter parsing and negotiation -/

/-- C1: parsing a flag string is claimed to give the bitwise union of the bits of
its letters, whatever their repetition.  `Parse` adds instead: on the zero
parameter the string "tt" gives 8, the `Source` bit alone, where "t" and the union
for "tt" both give `Sink`; "dd" likewise gives `Sink`. -/
theorem C1_Parse_adds_repeated_letters :
    Parameter.Parse 0 (ascii "tt") = Source
      ∧ Parameter.Parse 0 (ascii "t") = Sink
      ∧ flagUnion (ascii "tt") = Sink
      ∧ Parameter.Parse 0 (ascii "tt") ≠ flagUnion (ascii "tt")
      ∧ Parameter.Parse 0 (ascii "dd") = Sink := by
  decide

/-- C2: an scp command line without the letters t and f is claimed to be refused
without any call of `SinkRequest`.  The command `scp -dd /tmp/x` on a fresh channel
has no such letter, yet the two d add up to the `Sink` bit: `SinkRequest` is
called with parameters 4 and the pattern, and when it accepts the request is
replied with success and the status becomes `Ready`. -/
theorem C2_dd_reaches_SinkRequest :
    handleRequest acceptAll fresh (execRequest "scp -dd /tmp/x")
      = some { state := { params := Sink, pattern := ascii "/tmp/x",
                          transferStatus := .Ready, execReceived := true },
               reply := true, calls := [(Sink, ascii "/tmp/x")], signal := true } := by
  decide

/-- C3: an scp command line with both the letters t and f is claimed to be refused
without any call of `SinkRequest`.  The command `scp -tff /tmp/x` on a fresh channel
has both, yet 4 + 8 + 8 = 20 has the `Sink` bit set and the `Source` bit clear:
`SinkRequest` is called with parameters 20, and when it accepts the request is
replied with success and the status becomes `Ready`. -/
theorem C3_tff_reaches_SinkRequest :
    handleRequest acceptAll fresh (execRequest "scp -tff /tmp/x")
      = some { state := { params := 20, pattern := ascii "/tmp/x",
                          transferStatus := .Ready, execReceived := true },
               reply := true, calls := [(20, ascii "/tmp/x")], signal := true }
      ∧ 20 &&& Sink = Sink ∧ 20 &&& Source = 0 := by
  decide

/-- C4: for every four-byte length field and every non-empty pattern `P` without a
space that is not a flag token, the exec command `scp -t P` on a fresh channel
calls `SinkRequest` exactly once, with parameters exactly `Sink` and pattern `P`;
if it returns true the status becomes `Ready` and the reply is success, otherwise
the status becomes `Refused` and the reply is failure. -/
theorem C4_scp_t_calls_SinkRequest_once (SinkRequest : Parameter → GoString → Bool)
    (len4 P : GoString) (hlen : len4.length = 4) (hne : P ≠ []) (hsp : 32 ∉ P)
    (hflag : ¬ (P.head? = some 45 ∧ 1 < P.length)) :
    handleRequest SinkRequest fresh
        { Typ := ascii "exec", Payload := len4 ++ (ascii "scp -t " ++ P) }
      = some { state := { params := Sink, pattern := P,
                          transferStatus := if SinkRequest Sink P then .Ready else .Refused,
                          execReceived := true },
               reply := SinkRequest Sink P, calls := [(Sink, P)], signal := true } := by
  have hsplit : Split 32 (ascii "scp -t " ++ P) = [ascii "scp", ascii "-t", P] := by
    have h1 : ascii "scp -t " ++ P = ascii "scp" ++ 32 :: (ascii "-t" ++ 32 :: P) := by
      simp [ascii]
    rw [h1, Split_append_sep 32 _ _ (by decide), Split_append_sep 32 _ _ (by decide),
      Split_of_not_mem 32 P hsp]
  have hP0 : P.length ≠ 0 := by
    cases P with
    | nil => exact absurd rfl hne
    | cons b t => simp
  have hparse : Parameter.Parse 0 (List.drop 1 (ascii "-t")) = Sink := by decide
  have hscan : scanTokens [ascii "-t", P] (0, []) = (Sink, P) := by
    have hdash : (ascii "-t").head? = some 45 ∧ 1 < (ascii "-t").length := by decide
    have hl : ¬ ((ascii "-t").length = 0) := by decide
    simp only [scanTokens, if_neg hl, if_pos hdash, if_neg hP0, if_neg hflag, hparse,
      if_true]
  have hdrop : List.drop 4 (len4 ++ (ascii "scp -t " ++ P)) = ascii "scp -t " ++ P := by
    rw [List.drop_append_of_le_length (by omega), ← hlen, List.drop_length, List.nil_append]
  have hpl : ¬ ((len4 ++ (ascii "scp -t " ++ P)).length < 4) := by
    simp only [List.length_append]; omega
  have hs4 : (4 : Nat) &&& 4 = 4 := by decide
  have hs8 : (4 : Nat) &&& 8 = 0 := by decide
  simp only [handleRequest, fresh, if_true, Bool.false_eq_true, if_false, hpl, hdrop, hsplit,
    ne_eq, not_true_eq_false, hscan, decideTransfer, hne, Sink, Source, hs4, hs8]
  rcases Bool.eq_false_or_eq_true (SinkRequest 4 P) with hS | hS <;> simp [hS, finish]

/-- C4 at the command `scp -t /tmp/dest` with a refusing handler. -/
theorem C4_scp_t_calls_SinkRequest_once_witness :
    ([0, 0, 0, 16] : GoString).length = 4 ∧ ascii "/tmp/dest" ≠ [] ∧ 32 ∉ ascii "/tmp/dest"
      ∧ ¬ ((ascii "/tmp/dest").head? = some 45 ∧ 1 < (ascii "/tmp/dest").length)
      ∧ handleRequest (fun _ _ => false) fresh
        { Typ := ascii "exec", Payload := [0, 0, 0, 16] ++ (ascii "scp -t " ++ ascii "/tmp/dest") }
      = some { state := { params := Sink, pattern := ascii "/tmp/dest",
                          transferStatus := if (fun _ _ => false) Sink (ascii "/tmp/dest")
                            then .Ready else .Refused,
                          execReceived := true },
               reply := (fun _ _ => false) Sink (ascii "/tmp/dest"),
               calls := [(Sink, ascii "/tmp/dest")], signal := true } :=
  ⟨by decide, by decide, by decide, by decide,
    C4_scp_t_calls_SinkRequest_once (fun _ _ => false) [0, 0, 0, 16] (ascii "/tmp/dest")
      (by decide) (by decide) (by decide) (by decide)⟩

/-! ## Claims on the wire codec -/

/-- C5: for every permission `p` up to 9999, every length `n` below `2^63` and
every file name `f` (spaces allowed; the absence of a newline is not even needed),
`parseSCPCopy` applied to the letter C, `p` in four decimal digits, a space, `n`
in decimal, a space and `f` returns no error and the triple `(p, n, f)`. -/
theorem C5_parseSCPCopy_roundtrip (p n : Nat) (f : GoString) (hp : p ≤ 9999)
    (hn : n < 2 ^ 63) : parseSCPCopy (encodeCopy p n f) = .ok (p, (n : Int), f) := by
  obtain ⟨_, hdig, _⟩ := decimal_spec n
  have h1 : encodeCopy p n f = (67 :: pad4 p) ++ 32 :: (decimal n ++ 32 :: f) := by
    simp [encodeCopy]
  have hs1 : (32 : Nat) ∉ 67 :: pad4 p := by
    simp only [pad4, List.mem_cons, List.mem_singleton, List.not_mem_nil, or_false]
    omega
  have hs2 : (32 : Nat) ∉ decimal n := fun hm => by
    have := hdig 32 hm
    omega
  have hsplit : SplitN 32 (encodeCopy p n f) 3 = [67 :: pad4 p, decimal n, f] := by
    rw [h1, SplitN_append_sep 32 _ _ 1 hs1, SplitN_append_sep 32 _ _ 0 hs2]
    simp [SplitN]
  have hmode : ParseUint (List.take 4 (List.drop 1 (67 :: pad4 p))) 32 = .ok p := by
    have : List.take 4 (List.drop 1 (67 :: pad4 p)) = pad4 p := by simp [pad4]
    rw [this, ParseUint_pad4 p hp]
  have hlen : ¬ ((67 :: pad4 p).length ≠ 5 ∨ (67 :: pad4 p).head? ≠ some 67) := by
    simp [pad4]
  simp only [parseSCPCopy, hsplit]
  simp only [List.getElem?_cons_zero, List.getElem?_cons_succ, if_neg hlen, hmode,
    ParseInt_decimal n hn]

/-- C5 at permission 644, length 5 and a file name with a space. -/
theorem C5_parseSCPCopy_roundtrip_witness :
    644 ≤ 9999 ∧ 5 < 2 ^ 63
      ∧ parseSCPCopy (encodeCopy 644 5 (ascii "hello world.txt"))
          = .ok (644, ((5 : Nat) : Int), ascii "hello world.txt") :=
  ⟨by decide, by decide,
    C5_parseSCPCopy_roundtrip 644 5 (ascii "hello world.txt") (by decide) (by decide)⟩

/-- C6: the file name passed to `FileRequest` is claimed to be the name of the
record without the terminating newline.  For the record `C0644 5 hello.txt` read
from the channel with its newline, the length passed is 5 but the file name
passed is "hello.txt" followed by the newline byte: the line is parsed as
`ReadString` returned it, delimiter included. -/
theorem C6_filename_keeps_newline :
    parseSCPCopy (ascii "C0644 5 hello.txt\n") = .ok (644, 5, ascii "hello.txt\n")
      ∧ transfer { FileRequest := fun _ _ _ => { Code := OK, Message := [] },
                   FileCopy := fun _ => { Code := OK, Message := [] } }
          [ascii "C0644 5 hello.txt\n", ascii "hello"]
        = some [.write [0], .fileRequest 644 5 (ascii "hello.txt\n"), .write [0],
                .fileCopy (ascii "hello"), .write [0], .exitStatus 0, .close]
      ∧ ascii "hello.txt\n" ≠ ascii "hello.txt" := by
  decide

/-- C7: for every status, `Bytes` is the single byte 0 when the code is `OK`,
whatever the message, and otherwise the code byte, the message bytes and one
newline; the length is 1 for `OK` and the message length plus 2 otherwise; the
status `Warning` with message "disk full" encodes to byte 1 followed by the
message and a newline. -/
theorem C7_Status_Bytes (s : Status) :
    s.Bytes = (if s.Code = OK then [0] else s.Code :: (s.Message ++ [10]))
      ∧ s.Bytes.length = (if s.Code = OK then 1 else s.Message.length + 2)
      ∧ Status.Bytes { Code := OK, Message := s.Message } = [0]
      ∧ Status.Bytes { Code := Warning, Message := ascii "disk full" }
          = 1 :: ascii "disk full\n" := by
  refine ⟨?_, ?_, by simp [Status.Bytes, OK], by decide⟩
  · by_cases h : s.Code = OK
    · simp [Status.Bytes, h, OK]
    · simp [Status.Bytes, h]
  · by_cases h : s.Code = OK
    · simp [Status.Bytes, h]
    · simp [Status.Bytes, h]

/-! ## Claims on repeated exec requests and on malformed lines -/

/-- C8, as stated, fails: the exec request `ls` is processed first and replied with
failure, and the later exec request `scp -t x` is nevertheless processed: it calls
`SinkRequest`, is replied with success and moves the status from `Wait` to
`Ready`. -/
theorem C8_exec_after_non_scp_exec_is_processed :
    runRequests fresh [(acceptAll, execRequest "ls"), (acceptAll, execRequest "scp -t x")]
      = some [{ state := fresh, reply := false, calls := [], signal := false },
              { state := decided Sink (ascii "x") .Ready, reply := true,
                calls := [(Sink, ascii "x")], signal := true }] := by
  decide

/-- C8, amended: when an exec request on a channel that has not yet taken its
decision carries an scp command that passes the three checks (a pattern is there,
and exactly one of the `Sink` and `Source` bits is set), then, whatever
`SinkRequest` answers, handling it sets the exec-received flag and leaves the
status `Ready` (sink request accepted) or `Refused` (sink request refused, or
source request); and every later sequence of requests runs without a fault, each
request in it leaving the parameters, the pattern, the status and the flag
unchanged and calling no handler, and each exec request in it being replied with
failure. -/
theorem C8_later_exec_refused_after_decision (sink : Parameter → GoString → Bool)
    (st : ChanState) (req : Request) (rest : List GoString)
    (later : List ((Parameter → GoString → Bool) × Request))
    (hfirst : st.execReceived = false) (hexec : req.Typ = ascii "exec")
    (hlen : 4 ≤ req.Payload.length)
    (hscp : Split 32 (req.Payload.drop 4) = ascii "scp" :: rest)
    (hpat : (scanTokens rest (st.params, st.pattern)).2 ≠ [])
    (hboth : ¬ (0 < (scanTokens rest (st.params, st.pattern)).1 &&& Sink
                ∧ 0 < (scanTokens rest (st.params, st.pattern)).1 &&& Source))
    (hnone : ¬ ((scanTokens rest (st.params, st.pattern)).1 &&& Sink = 0
                ∧ (scanTokens rest (st.params, st.pattern)).1 &&& Source = 0)) :
    ∃ r rs, runRequests st ((sink, req) :: later) = some (r :: rs)
      ∧ r.state.execReceived = true
      ∧ r.state.transferStatus
          = (if (scanTokens rest (st.params, st.pattern)).1 &&& Sink = Sink
                ∧ sink (scanTokens rest (st.params, st.pattern)).1
                    (scanTokens rest (st.params, st.pattern)).2 = true
             then .Ready else .Refused)
      ∧ List.Forall₂ (fun e x => x.state = r.state ∧ x.calls = []
          ∧ (e.2.Typ = ascii "exec" → x.reply = false)) later rs := by
  obtain ⟨p0, pat0, ts0, fl0⟩ := st
  simp only at hfirst
  subst hfirst
  simp only at hpat hboth hnone
  have hlen4 : ¬ req.Payload.length < 4 := by omega
  have hr : handleRequest sink
        { params := p0, pattern := pat0, transferStatus := ts0, execReceived := false } req
      = some (decideTransfer sink
          { params := (scanTokens rest (p0, pat0)).1, pattern := (scanTokens rest (p0, pat0)).2,
            transferStatus := ts0, execReceived := false }) := by
    simp only [handleRequest, hexec, if_true, Bool.false_eq_true, if_false, hlen4, hscp,
      ne_eq, not_true_eq_false]
  obtain ⟨hflag, hstatus⟩ := decideTransfer_of_valid sink
    { params := (scanTokens rest (p0, pat0)).1, pattern := (scanTokens rest (p0, pat0)).2,
      transferStatus := ts0, execReceived := false } hpat hboth hnone
  generalize decideTransfer sink
    { params := (scanTokens rest (p0, pat0)).1, pattern := (scanTokens rest (p0, pat0)).2,
      transferStatus := ts0, execReceived := false } = r at hr hflag hstatus
  have key : ∃ rs, runRequests r.state later = some rs ∧
      List.Forall₂ (fun e x => x.state = r.state ∧ x.calls = []
        ∧ (e.2.Typ = ascii "exec" → x.reply = false)) later rs := by
    induction later with
    | nil => exact ⟨[], rfl, List.Forall₂.nil⟩
    | cons e tl ih =>
      obtain ⟨rs, hrs, hall⟩ := ih
      refine ⟨finish r.state (decide (e.2.Typ = ascii "env")) [] :: rs, ?_, ?_⟩
      · obtain ⟨s1, q⟩ := e
        simp only [runRequests, handleRequest_of_execReceived s1 r.state q hflag]
        simp only [finish, hrs]
      · refine List.Forall₂.cons ⟨rfl, rfl, ?_⟩ hall
        intro hx
        have hne : ¬ (ascii "exec" = ascii "env") := by decide
        simp [finish, hx, hne]
  obtain ⟨rs, hrs, hall⟩ := key
  exact ⟨r, rs, by simp only [runRequests, hr, hrs], hflag, hstatus, hall⟩

/-- C8 amended, at the source request `scp -f x` on a fresh channel, which is
refused, followed by the exec request `scp -t y` and an env request. -/
theorem C8_later_exec_refused_after_decision_witness :
    fresh.execReceived = false ∧ (execRequest "scp -f x").Typ = ascii "exec"
      ∧ 4 ≤ (execRequest "scp -f x").Payload.length
      ∧ Split 32 ((execRequest "scp -f x").Payload.drop 4) = ascii "scp" :: [ascii "-f", ascii "x"]
      ∧ (scanTokens [ascii "-f", ascii "x"] (fresh.params, fresh.pattern)).2 ≠ []
      ∧ ¬ (0 < (scanTokens [ascii "-f", ascii "x"] (fresh.params, fresh.pattern)).1 &&& Sink
            ∧ 0 < (scanTokens [ascii "-f", ascii "x"] (fresh.params, fresh.pattern)).1 &&& Source)
      ∧ ¬ ((scanTokens [ascii "-f", ascii "x"] (fresh.params, fresh.pattern)).1 &&& Sink = 0
            ∧ (scanTokens [ascii "-f", ascii "x"] (fresh.params, fresh.pattern)).1 &&& Source = 0)
      ∧ ∃ r rs, runRequests fresh ((acceptAll, execRequest "scp -f x") ::
            [(acceptAll, execRequest "scp -t y"), (acceptAll, envRequest)]) = some (r :: rs)
          ∧ r.state.execReceived = true
          ∧ r.state.transferStatus
              = (if (scanTokens [ascii "-f", ascii "x"] (fresh.params, fresh.pattern)).1 &&& Sink
                      = Sink
                    ∧ acceptAll (scanTokens [ascii "-f", ascii "x"] (fresh.params, fresh.pattern)).1
                        (scanTokens [ascii "-f", ascii "x"] (fresh.params, fresh.pattern)).2 = true
                 then .Ready else .Refused)
          ∧ List.Forall₂ (fun e x => x.state = r.state ∧ x.calls = []
              ∧ (e.2.Typ = ascii "exec" → x.reply = false))
            [(acceptAll, execRequest "scp -t y"), (acceptAll, envRequest)] rs :=
  ⟨by decide, by decide, by decide, by decide, by decide, by decide, by decide,
    C8_later_exec_refused_after_decision acceptAll fresh (execRequest "scp -f x")
      [ascii "-f", ascii "x"] [(acceptAll, execRequest "scp -t y"), (acceptAll, envRequest)]
      (by decide) (by decide) (by decide) (by decide) (by decide) (by decide) (by decide)⟩

/-- C9, as stated, fails: the line `C0644 5` splits into two fields and the line
`C0644` into one; both pass the checks on the first field, and `parseSCPCopy` then
indexes the token list past its end, which is a fault, not an error value.  Neither
line ends with the newline that every line read by the transfer loop carries. -/
theorem C9_short_line_faults :
    SplitN 32 (ascii "C0644 5") 3 = [ascii "C0644", ascii "5"]
      ∧ parseSCPCopy (ascii "C0644 5") = .fault
      ∧ SplitN 32 (ascii "C0644") 3 = [ascii "C0644"]
      ∧ parseSCPCopy (ascii "C0644") = .fault := by
  decide

/-- C10: an accepted line is claimed to carry a non-negative length, a negative
length field being rejected.  The line `C0644 -5 x` is accepted and the length
returned is -5; read from the channel with its newline it reaches `FileRequest`
with that length. -/
theorem C10_negative_length_accepted :
    parseSCPCopy (ascii "C0644 -5 x") = .ok (644, -5, ascii "x")
      ∧ (transfer { FileRequest := fun _ _ _ => { Code := OK, Message := [] },
                    FileCopy := fun _ => { Code := OK, Message := [] } }
          [ascii "C0644 -5 x\n", ascii "hello"]).map (List.take 2)
        = some [.write [0], .fileRequest 644 (-5) (ascii "x\n")] := by
  decide

/-! ## Claims on the transfer -/

/-- C11: the reader given to `FileCopy` is claimed to yield exactly the `length`
bytes after the record, however the channel delivers them.  The line is read
through a buffered reader, but the bounded reader is put on the channel itself:
when the record `C0644 5 hello.txt` and its five payload bytes arrive in one read,
all of them sit in the buffer and the reader of `FileCopy` yields none of them;
when two payload bytes arrive with the record it yields the last three only.  The
claim holds when the payload arrives in a read of its own. -/
theorem C11_payload_read_with_record_is_lost :
    transfer okHandler [ascii "C0644 5 hello.txt\nhello"]
        = some [.write [0], .fileRequest 644 5 (ascii "hello.txt\n"), .write [0],
                .fileCopy [], .write [0], .exitStatus 0, .close]
      ∧ transfer okHandler [ascii "C0644 5 hello.txt\nhe", ascii "llo"]
        = some [.write [0], .fileRequest 644 5 (ascii "hello.txt\n"), .write [0],
                .fileCopy (ascii "llo"), .write [0], .exitStatus 0, .close]
      ∧ transfer okHandler [ascii "C0644 5 hello.txt\n", ascii "hello"]
        = some [.write [0], .fileRequest 644 5 (ascii "hello.txt\n"), .write [0],
                .fileCopy (ascii "hello"), .write [0], .exitStatus 0, .close] := by
  decide

theorem throughNewline_afterNewline (c : List Nat) :
    throughNewline c ++ afterNewline c = c := by
  induction c with
  | nil => rfl
  | cons b t ih =>
    by_cases hb : b = 10
    · simp [throughNewline, afterNewline, hb]
    · simp [throughNewline, afterNewline, hb, ih]

/-- The reads of `ReadString` split what the channel delivers into the line, the
bytes read ahead, and the chunks that are still to be read. -/
theorem ReadString_partition (chunks : List (List Nat)) : ∀ (acc line : List Nat)
    (later : List (List Nat)), ReadString chunks acc = some (line, later) →
    acc ++ chunks.flatten = line ++ readAhead chunks ++ later.flatten := by
  induction chunks with
  | nil => intro acc line later h; simp [ReadString] at h
  | cons c cs ih =>
    intro acc line later h
    by_cases hc : 10 ∈ c
    · simp only [ReadString, if_pos hc, Option.some.injEq, Prod.mk.injEq] at h
      obtain ⟨h1, h2⟩ := h
      subst h1 h2
      simp only [readAhead, if_pos hc, List.flatten_cons, List.append_assoc]
      rw [← List.append_assoc (throughNewline c), throughNewline_afterNewline]
    · simp only [ReadString, if_neg hc] at h
      have := ih _ _ _ h
      simp only [readAhead, if_neg hc, List.flatten_cons]
      rw [← this, List.append_assoc]

/-- C12, as stated, fails in its last clause: when the record `C0644 5 hello.txt`
and its five payload bytes arrive in one read and `FileRequest` answers a warning,
`FileCopy` is not invoked and no second status is written, but the five bytes of
the body have been read off the channel with the record. -/
theorem C12_body_read_ahead_despite_warning :
    transfer warnHandler [ascii "C0644 5 hello.txt\nhello"]
        = some [.write [0], .fileRequest 644 5 (ascii "hello.txt\n"),
                .write (1 :: ascii "disk full\n"), .exitStatus 0, .close]
      ∧ ReadString [ascii "C0644 5 hello.txt\nhello"] []
        = some (ascii "C0644 5 hello.txt\n", [])
      ∧ readAhead [ascii "C0644 5 hello.txt\nhello"] = ascii "hello" := by
  decide

/-- C12, amended: for every record the transfer loop reads, dispatches as a `C`
record and parses without error, the transfer does not fault; `FileCopy` is
invoked, once, if and only if the status returned by `FileRequest` has code `OK`;
the bytes written to the channel are the go-ahead byte 0, the encoding of the
status of `FileRequest`, and then the encoding of the status of `FileCopy` exactly
when that code is `OK`; and what reading the record has taken off the channel is
the line and the bytes that arrived in the same read after its newline, the later
chunks being left to the bounded reader, which exists only when `FileCopy` is
invoked. -/
theorem C12_FileCopy_iff_FileRequest_OK (h : FileHandler) (chunks later : List (List Nat))
    (line filename : GoString) (mode : Nat) (length : Int)
    (hread : ReadString chunks [] = some (line, later)) (hC : line.head? = some 67)
    (hparse : parseSCPCopy line = .ok (mode, length, filename)) :
    ∃ evs, transfer h chunks = some evs
      ∧ (copyCalls evs = 1 ↔ (h.FileRequest mode length filename).Code = OK)
      ∧ (copyCalls evs = 0 ↔ (h.FileRequest mode length filename).Code ≠ OK)
      ∧ written evs = [0] ++ (h.FileRequest mode length filename).Bytes
          ++ (if (h.FileRequest mode length filename).Code = OK
              then (h.FileCopy (limitReader later length)).Bytes else [])
      ∧ chunks.flatten = line ++ readAhead chunks ++ later.flatten
      ∧ (∀ bytes, TransferEvent.fileCopy bytes ∈ evs →
          (h.FileRequest mode length filename).Code = OK ∧ bytes = limitReader later length) := by
  have hpart : chunks.flatten = line ++ readAhead chunks ++ later.flatten := by
    simpa using ReadString_partition chunks [] line later hread
  cases line with
  | nil => simp at hC
  | cons l0 t =>
    have h0 : l0 = 67 := by simpa using hC
    subst h0
    by_cases hok : (h.FileRequest mode length filename).Code = OK
    · have ht : transfer h chunks
          = some [.write [0], .fileRequest mode length filename,
                  .write (h.FileRequest mode length filename).Bytes,
                  .fileCopy (limitReader later length),
                  .write (h.FileCopy (limitReader later length)).Bytes,
                  .exitStatus 0, .close] := by
        simp only [transfer, hread, hparse, if_true, hok]
      refine ⟨_, ht, ?_, ?_, ?_, hpart, ?_⟩
      · simp [copyCalls, hok]
      · simp [copyCalls, hok]
      · simp [written, hok]
      · intro bytes hb
        simp only [List.mem_cons, TransferEvent.fileCopy.injEq, List.mem_singleton,
          List.not_mem_nil, or_false, false_or, reduceCtorEq] at hb
        exact ⟨hok, hb⟩
    · have ht : transfer h chunks
          = some [.write [0], .fileRequest mode length filename,
                  .write (h.FileRequest mode length filename).Bytes,
                  .exitStatus 0, .close] := by
        simp only [transfer, hread, hparse, if_true, hok, if_false]
      refine ⟨_, ht, ?_, ?_, ?_, hpart, ?_⟩
      · simp [copyCalls, hok]
      · simp [copyCalls, hok]
      · simp [written, hok]
      · intro bytes hb
        simp at hb

/-- C12 amended, at the record `C0644 5 hello.txt` with two payload bytes in the
same read and a handler that answers a warning. -/
theorem C12_FileCopy_iff_FileRequest_OK_witness :
    ReadString [ascii "C0644 5 hello.txt\nhe", ascii "llo"] []
        = some (ascii "C0644 5 hello.txt\n", [ascii "llo"])
      ∧ (ascii "C0644 5 hello.txt\n").head? = some 67
      ∧ parseSCPCopy (ascii "C0644 5 hello.txt\n") = .ok (644, 5, ascii "hello.txt\n")
      ∧ ∃ evs, transfer warnHandler [ascii "C0644 5 hello.txt\nhe", ascii "llo"] = some evs
        ∧ (copyCalls evs = 1 ↔ (warnHandler.FileRequest 644 5 (ascii "hello.txt\n")).Code = OK)
        ∧ (copyCalls evs = 0 ↔ (warnHandler.FileRequest 644 5 (ascii "hello.txt\n")).Code ≠ OK)
        ∧ written evs = [0] ++ (warnHandler.FileRequest 644 5 (ascii "hello.txt\n")).Bytes
            ++ (if (warnHandler.FileRequest 644 5 (ascii "hello.txt\n")).Code = OK
                then (warnHandler.FileCopy (limitReader [ascii "llo"] 5)).Bytes else [])
        ∧ [ascii "C0644 5 hello.txt\nhe", ascii "llo"].flatten
            = ascii "C0644 5 hello.txt\n"
                ++ readAhead [ascii "C0644 5 hello.txt\nhe", ascii "llo"]
                ++ [ascii "llo"].flatten
        ∧ (∀ bytes, TransferEvent.fileCopy bytes ∈ evs →
            (warnHandler.FileRequest 644 5 (ascii "hello.txt\n")).Code = OK
              ∧ bytes = limitReader [ascii "llo"] 5) :=
  ⟨by decide, by decide, by decide,
    C12_FileCopy_iff_FileRequest_OK warnHandler [ascii "C0644 5 hello.txt\nhe", ascii "llo"]
      [ascii "llo"] (ascii "C0644 5 hello.txt\n") (ascii "hello.txt\n") 644 5
      (by decide) (by decide) (by decide)⟩

/-- C13: the permission digits are claimed to be read as an octal numeral, the
record `C0644 5 hello.txt` giving mode 0644, that is 420.  The field is parsed in
base 10: the mode returned is 644, and the digits 8 and 9 are accepted. -/
theorem C13_mode_is_read_in_base_ten :
    parseSCPCopy (ascii "C0644 5 hello.txt") = .ok (644, 5, ascii "hello.txt")
      ∧ octalValue (ascii "0644") = 420
      ∧ octalValue (ascii "0644") = 0o644
      ∧ (644 : Nat) ≠ octalValue (ascii "0644")
      ∧ parseSCPCopy (ascii "C0999 5 hello.txt") = .ok (999, 5, ascii "hello.txt") := by
  decide

/-! ## Claims on the other requests, the lifecycle and the deadline -/

/-- C14, as stated, fails: a request of type `shell` on a fresh channel is replied
with failure, and so is one of type `pty-req`; only `env` is replied with success. -/
theorem C14_unexpected_request_is_refused :
    handleRequest acceptAll fresh { Typ := ascii "shell", Payload := [] }
        = some { state := fresh, reply := false, calls := [], signal := false }
      ∧ handleRequest acceptAll fresh { Typ := ascii "pty-req", Payload := [] }
        = some { state := fresh, reply := false, calls := [], signal := false }
      ∧ handleRequest acceptAll fresh envRequest
        = some { state := fresh, reply := true, calls := [], signal := false } := by
  decide

/-- C14, amended: handling a request whose type is not `exec` never faults, calls
no handler and changes neither the parameters, the pattern, the status nor the
exec-received flag; it is replied with success if its type is `env` and with
failure otherwise. -/
theorem C14_non_exec_request (sink : Parameter → GoString → Bool) (st : ChanState)
    (req : Request) (hne : req.Typ ≠ ascii "exec") :
    ∃ r, handleRequest sink st req = some r ∧ r.state = st ∧ r.calls = []
      ∧ (r.reply = true ↔ req.Typ = ascii "env") := by
  by_cases he : req.Typ = ascii "env"
  · refine ⟨finish st true [], ?_, rfl, rfl, ?_⟩
    · have hx : ¬ (ascii "env" = ascii "exec") := by decide
      simp [handleRequest, he, hx]
    · simp [finish, he]
  · refine ⟨finish st false [], ?_, rfl, rfl, ?_⟩
    · simp [handleRequest, hne, he]
    · simp [finish, he]

/-- C14 amended, at a `pty-req` request on a channel that is already `Ready`. -/
theorem C14_non_exec_request_witness :
    ascii "pty-req" ≠ ascii "exec"
      ∧ ∃ r, handleRequest acceptAll (decided Sink (ascii "x") .Ready)
            { Typ := ascii "pty-req", Payload := [] } = some r
          ∧ r.state = decided Sink (ascii "x") .Ready ∧ r.calls = []
          ∧ (r.reply = true ↔ ascii "pty-req" = ascii "env") :=
  ⟨by decide,
    C14_non_exec_request acceptAll (decided Sink (ascii "x") .Ready)
      { Typ := ascii "pty-req", Payload := [] } (by decide)⟩

/-- C15, as stated, fails: on a new service the first call of `Stop` closes the
stop channel and returns, and the second call panics at `close`. -/
theorem C15_second_Stop_panics :
    NewBaseService.Stop = .returned { Stopper := .closed, WaitGroup := 0 }
      ∧ BaseService.Stop { Stopper := .closed, WaitGroup := 0 } = .panicked := by
  decide

/-- C15, amended: on a service whose stop channel has been made and is still open,
whatever the number of handlers in flight, a call of `Stop` does not panic and
closes the channel, which broadcasts the stop signal; it returns exactly when no
work is in flight and is left waiting for the wait group otherwise, the counter
being untouched; and on the service it leaves, a further call of `Stop` panics, so
that the channel is closed once. -/
theorem C15_first_Stop_closes_once (s : BaseService) (hlive : s.Stopper = .live) :
    ∃ s1, (s.Stop = .returned s1 ∨ s.Stop = .waiting s1)
      ∧ (s.Stop = .returned s1 ↔ s.WaitGroup = 0)
      ∧ s1.Stopper = .closed ∧ s1.WaitGroup = s.WaitGroup
      ∧ s1.Stop = .panicked := by
  refine ⟨{ Stopper := .closed, WaitGroup := s.WaitGroup }, ?_, ?_, rfl, rfl, rfl⟩
  · by_cases hw : s.WaitGroup = 0
    · left; simp [BaseService.Stop, hlive, closeChan, hw]
    · right; simp [BaseService.Stop, hlive, closeChan, hw]
  · by_cases hw : s.WaitGroup = 0
    · simp [BaseService.Stop, hlive, closeChan, hw]
    · simp [BaseService.Stop, hlive, closeChan, hw]

/-- C15 amended, at a service with two handlers in flight. -/
theorem C15_first_Stop_closes_once_witness :
    ({ Stopper := .live, WaitGroup := 2 } : BaseService).Stopper = .live
      ∧ ∃ s1, (BaseService.Stop { Stopper := .live, WaitGroup := 2 } = .returned s1
            ∨ BaseService.Stop { Stopper := .live, WaitGroup := 2 } = .waiting s1)
          ∧ (BaseService.Stop { Stopper := .live, WaitGroup := 2 } = .returned s1
              ↔ ({ Stopper := .live, WaitGroup := 2 } : BaseService).WaitGroup = 0)
          ∧ s1.Stopper = .closed
          ∧ s1.WaitGroup = ({ Stopper := .live, WaitGroup := 2 } : BaseService).WaitGroup
          ∧ s1.Stop = .panicked :=
  ⟨rfl, C15_first_Stop_closes_once { Stopper := .live, WaitGroup := 2 } rfl⟩

/-- C16: in every interleaving `Stop` is claimed to return only after every
handler spawned by `Serve` has finished, no connection being accepted after
`Stop` has begun.  In the interleaving where `Serve` passes its stop check and is
inside `AcceptTCP`, `Stop` closes the stop channel and returns at once, the
counter being zero, and a connection then arrives: it is accepted, the counter goes
to one and a handler is spawned, after `Stop` has begun and has returned, with the
listener still open. -/
theorem C16_accept_after_Stop_returned :
    runSteps serving [.serveCheck, .stopClose, .stopWait, .accept]
      = [{ Base := { Stopper := .live, WaitGroup := 0 }, serve := .accepting,
           listenerClosed := false, running := 0, stopsWaiting := 0, stopsReturned := 0 },
         { Base := { Stopper := .closed, WaitGroup := 0 }, serve := .accepting,
           listenerClosed := false, running := 0, stopsWaiting := 1, stopsReturned := 0 },
         { Base := { Stopper := .closed, WaitGroup := 0 }, serve := .accepting,
           listenerClosed := false, running := 0, stopsWaiting := 0, stopsReturned := 1 },
         { Base := { Stopper := .closed, WaitGroup := 1 }, serve := .check,
           listenerClosed := false, running := 1, stopsWaiting := 0, stopsReturned := 1 }] := by
  decide

/-- C17: the terminal statuses are claimed to be absorbing, a deadline after
`Ready` leaving the status `Ready`.  After the command `scp -t x` has been accepted
the timer case sets the status from `Ready` to `Refused`; and after the timer has
set `Refused` on a waiting channel, the command `scp -t x` is still processed and
sets the status to `Ready`. -/
theorem C17_terminal_status_is_overwritten :
    (runEvents fresh [.request acceptAll (execRequest "scp -t x"), .deadline]).map
        (fun r => r.state.transferStatus) = [.Ready, .Refused]
      ∧ (handleDeadline (decided Sink (ascii "x") .Ready)).state.transferStatus = .Refused
      ∧ (runEvents fresh [.deadline, .request acceptAll (execRequest "scp -t x")]).map
        (fun r => r.state.transferStatus) = [.Refused, .Ready] := by
  decide

/-- The splitting of a command line never gives an empty token list. -/
theorem Split_ne_nil (sep : Nat) (s : GoString) : Split sep s ≠ [] := by
  cases s with
  | nil => simp [Split]
  | cons b t =>
    by_cases hb : b = sep
    · simp [Split, hb]
    · cases hs : Split sep t <;> simp [Split, hb, hs, consHead]

/-- C20: an exec request with a payload of any length is claimed to be handled
without an access out of range.  A first exec request whose payload has fewer than
four bytes (three bytes, or none) panics at the slice `req.Payload[4:]`; with four
bytes or more the step never panics, the token list having at least one element. -/
theorem C20_short_payload_panics (sink : Parameter → GoString → Bool) (st : ChanState)
    (a b c d : Nat) (rest : List Nat) :
    handleRequest acceptAll fresh { Typ := ascii "exec", Payload := [0, 0, 0] } = none
      ∧ handleRequest acceptAll fresh { Typ := ascii "exec", Payload := [] } = none
      ∧ handleRequest sink st { Typ := ascii "exec", Payload := a :: b :: c :: d :: rest }
          ≠ none := by
  refine ⟨by decide, by decide, ?_⟩
  by_cases hx : st.execReceived = true
  · simp [handleRequest, hx]
  · cases hs : Split 32 rest with
    | nil => exact absurd hs (Split_ne_nil 32 rest)
    | cons t0 ts =>
      by_cases ht : t0 = ascii "scp"
      · simp [handleRequest, hx, hs, ht]
      · simp [handleRequest, hx, hs, ht]

/-! ## Claims on the invocations of `SinkRequest` -/

/-- The decision step calls `SinkRequest` at most once, with a good call, and
sets the exec-received flag when it does. -/
theorem decideTransfer_calls (sink : Parameter → GoString → Bool) (st : ChanState) :
    (decideTransfer sink st).calls = []
      ∨ ((decideTransfer sink st).calls = [(st.params, st.pattern)]
          ∧ goodCall (st.params, st.pattern)
          ∧ (decideTransfer sink st).state.execReceived = true) := by
  unfold decideTransfer
  by_cases h1 : st.pattern = []
  · left; simp [h1, finish]
  · by_cases h2 : 0 < st.params &&& Sink ∧ 0 < st.params &&& Source
    · left; simp [h1, h2, finish]
    · by_cases h3 : st.params &&& Sink = 0 ∧ st.params &&& Source = 0
      · left; simp only [if_neg h1, if_neg h2, if_pos h3, finish]
      · by_cases h4 : st.params &&& Sink = Sink
        · right
          have hs : 0 < st.params &&& Sink := by rw [h4]; decide
          have h5 : st.params &&& Source = 0 := by
            by_contra hc
            exact h2 ⟨hs, Nat.pos_of_ne_zero hc⟩
          by_cases h6 : sink st.params st.pattern = true
          · rw [if_neg h1, if_neg h2, if_neg h3, if_pos h4, if_pos h6]
            exact ⟨rfl, ⟨h1, h4, h5⟩, rfl⟩
          · rw [if_neg h1, if_neg h2, if_neg h3, if_pos h4, if_neg h6]
            exact ⟨rfl, ⟨h1, h4, h5⟩, rfl⟩
        · left; simp only [if_neg h1, if_neg h2, if_neg h3, if_neg h4, finish]

/-- One event calls `SinkRequest` at most once, with a good call and only while
the exec-received flag is unset, setting it; and the flag once set stays set. -/
theorem handleEvent_calls (st : ChanState) (e : Event) (r : StepResult)
    (h : handleEvent st e = some r) :
    (r.calls = [] ∧ (st.execReceived = true → r.state.execReceived = true))
      ∨ (∃ c, r.calls = [c] ∧ goodCall c ∧ st.execReceived = false
          ∧ r.state.execReceived = true) := by
  cases e with
  | deadline =>
    left
    simp only [handleEvent, handleDeadline, Option.some.injEq] at h
    subst h
    exact ⟨rfl, fun hx => hx⟩
  | request sink req =>
    simp only [handleEvent] at h
    by_cases hx : st.execReceived = true
    · rw [handleRequest_of_execReceived sink st req hx] at h
      simp only [Option.some.injEq] at h
      subst h
      exact Or.inl ⟨rfl, fun _ => hx⟩
    · have hf : st.execReceived = false := by simpa using hx
      obtain ⟨p0, pat0, ts0, fl0⟩ := st
      simp only at hf
      subst hf
      by_cases hexec : req.Typ = ascii "exec"
      · by_cases hlen : req.Payload.length < 4
        · simp [handleRequest, hexec, hlen] at h
        · cases hs : Split 32 (req.Payload.drop 4) with
          | nil => exact absurd hs (Split_ne_nil 32 _)
          | cons t0 ts =>
            by_cases ht : t0 = ascii "scp"
            · simp only [handleRequest, hexec, if_true, Bool.false_eq_true, if_false, hlen,
                hs, ht, ne_eq, not_true_eq_false, Option.some.injEq] at h
              subst h
              rcases decideTransfer_calls sink
                  { params := (scanTokens ts (p0, pat0)).1, pattern := (scanTokens ts (p0, pat0)).2,
                    transferStatus := ts0, execReceived := false } with hc | hc
              · exact Or.inl ⟨hc, fun hh => absurd hh hx⟩
              · exact Or.inr ⟨_, hc.1, hc.2.1, rfl, hc.2.2⟩
            · simp only [handleRequest, hexec, if_true, Bool.false_eq_true, if_false, hlen,
                hs, ne_eq, ht, not_false_eq_true, Option.some.injEq] at h
              subst h
              exact Or.inl ⟨rfl, fun hh => absurd hh hx⟩
      · rw [handleRequest_of_not_exec sink _ req hexec] at h
        simp only [Option.some.injEq] at h
        subst h
        exact Or.inl ⟨rfl, fun hh => absurd hh hx⟩

/-- Along any run, from any state, `SinkRequest` is called at most once and only
with good calls; from a state with the exec-received flag set it is never called. -/
theorem runEvents_calls (evs : List Event) : ∀ st : ChanState,
    (allCalls (runEvents st evs)).length ≤ 1
      ∧ (st.execReceived = true → allCalls (runEvents st evs) = [])
      ∧ ∀ c ∈ allCalls (runEvents st evs), goodCall c := by
  induction evs with
  | nil => intro st; simp [runEvents, allCalls]
  | cons e rest ih =>
    intro st
    cases he : handleEvent st e with
    | none => simp [runEvents, he, allCalls]
    | some r =>
      have hrun : allCalls (runEvents st (e :: rest)) = r.calls ++ allCalls (runEvents r.state rest) := by
        simp [runEvents, he, allCalls]
      obtain ⟨ih1, ih2, ih3⟩ := ih r.state
      rw [hrun]
      rcases handleEvent_calls st e r he with ⟨hc, hflag⟩ | ⟨c, hc, hgood, hst, hset⟩
      · rw [hc]
        refine ⟨by simpa using ih1, fun hx => by simpa using ih2 (hflag hx), ?_⟩
        simpa using ih3
      · rw [hc, ih2 hset]
        refine ⟨by simp, fun hx => ?_, ?_⟩
        · rw [hst] at hx; cases hx
        · intro c1 hc1
          simp only [List.append_nil, List.mem_singleton] at hc1
          rw [hc1]; exact hgood

/-- C18: for every sequence of requests and deadline events on a fresh channel,
`SinkRequest` is invoked at most once in the whole run, and every invocation
passes parameters with the `Sink` bit set and the `Source` bit clear and a
non-empty pattern. -/
theorem C18_SinkRequest_at_most_once (evs : List Event) :
    (allCalls (runEvents fresh evs)).length ≤ 1
      ∧ ∀ c ∈ allCalls (runEvents fresh evs),
          c.1 &&& Sink = Sink ∧ c.1 &&& Source = 0 ∧ c.2 ≠ [] := by
  obtain ⟨h1, _, h3⟩ := runEvents_calls evs fresh
  exact ⟨h1, fun c hc => ⟨(h3 c hc).2.1, (h3 c hc).2.2, (h3 c hc).1⟩⟩

/-! ## Claims on the lines the transfer loop reads -/

theorem throughNewline_ends (c : List Nat) (h : 10 ∈ c) :
    ∃ pre, throughNewline c = pre ++ [10] := by
  induction c with
  | nil => simp at h
  | cons b t ih =>
    by_cases hb : b = 10
    · exact ⟨[], by simp [throughNewline, hb]⟩
    · have ht : 10 ∈ t := by
        rcases List.mem_cons.mp h with h1 | h1
        · exact absurd h1.symm hb
        · exact h1
      obtain ⟨pre, hpre⟩ := ih ht
      exact ⟨b :: pre, by simp [throughNewline, hb, hpre]⟩

/-- A line returned by `ReadString` ends with the newline. -/
theorem ReadString_ends (chunks : List (List Nat)) : ∀ (acc line : List Nat)
    (later : List (List Nat)), ReadString chunks acc = some (line, later) →
    ∃ body, line = body ++ [10] := by
  induction chunks with
  | nil => intro acc line later h; simp [ReadString] at h
  | cons c cs ih =>
    intro acc line later h
    by_cases hc : 10 ∈ c
    · obtain ⟨pre, hpre⟩ := throughNewline_ends c hc
      simp only [ReadString, if_pos hc, Option.some.injEq, Prod.mk.injEq] at h
      exact ⟨acc ++ pre, by rw [← h.1, hpre, List.append_assoc]⟩
    · simp only [ReadString, if_neg hc] at h
      exact ih _ _ _ h

theorem SplitN_of_not_mem (sep : Nat) (s : GoString) (n : Nat) (h : sep ∉ s) :
    SplitN sep s (n + 1) = [s] := by
  induction s with
  | nil => cases n <;> simp [SplitN]
  | cons b t ih =>
    have hb : b ≠ sep := fun e => h (by simp [e])
    have ht : sep ∉ t := fun m => h (by simp [m])
    cases n with
    | zero => simp [SplitN]
    | succ k =>
      have := ih ht
      simp [SplitN, hb, this, consHead]

theorem exists_first_sep (sep : Nat) (s : GoString) (h : sep ∈ s) :
    ∃ a rest, s = a ++ sep :: rest ∧ sep ∉ a := by
  induction s with
  | nil => simp at h
  | cons b t ih =>
    by_cases hb : b = sep
    · exact ⟨[], t, by simp [hb], by simp⟩
    · have ht : sep ∈ t := by
        rcases List.mem_cons.mp h with h1 | h1
        · exact absurd h1.symm hb
        · exact h1
      obtain ⟨a, rest, hs, ha⟩ := ih ht
      refine ⟨b :: a, rest, by simp [hs], ?_⟩
      intro hm
      rcases List.mem_cons.mp hm with h1 | h1
      · exact hb h1.symm
      · exact ha h1

/-- A byte that is not a decimal digit makes the digit loop fail. -/
theorem parseUintLoop_nondigit (maxVal c : Nat) (hc : ¬ (48 ≤ c ∧ c ≤ 57)) (l : GoString) :
    ∀ acc, c ∈ l → ∃ e, parseUintLoop maxVal l acc = .error e := by
  induction l with
  | nil => intro acc h; simp at h
  | cons b t ih =>
    intro acc h
    by_cases hb : 48 ≤ b ∧ b ≤ 57
    · have ht : c ∈ t := by
        rcases List.mem_cons.mp h with h1 | h1
        · rw [h1] at hc; exact absurd hb hc
        · exact h1
      by_cases h1 : cutoff10 ≤ acc
      · exact ⟨_, by rw [parseUintLoop, if_pos hb, if_pos h1]⟩
      · by_cases h2 : 2 ^ 64 ≤ acc * 10 + (b - 48) ∨ maxVal < acc * 10 + (b - 48)
        · exact ⟨_, by rw [parseUintLoop, if_pos hb, if_neg h1, if_pos h2]⟩
        · obtain ⟨e, he⟩ := ih (acc * 10 + (b - 48)) ht
          exact ⟨e, by rw [parseUintLoop, if_pos hb, if_neg h1, if_neg h2, he]⟩
    · exact ⟨_, by rw [parseUintLoop, if_neg hb]⟩

theorem ParseUint_nondigit (c : Nat) (hc : ¬ (48 ≤ c ∧ c ≤ 57)) (s : GoString) (bitSize : Nat)
    (h : c ∈ s) : ∃ e, ParseUint s bitSize = .error e := by
  by_cases hs : s = []
  · exact ⟨_, by rw [ParseUint, if_pos hs]⟩
  · obtain ⟨e, he⟩ := parseUintLoop_nondigit (2 ^ bitSize - 1) c hc s 0 h
    exact ⟨e, by rw [ParseUint, if_neg hs, he]⟩

/-- A numeral with a newline in it is rejected by the signed parser. -/
theorem ParseInt_newline (s : GoString) (bitSize : Nat) (h : 10 ∈ s) :
    ∃ e, ParseInt s bitSize = .error e := by
  cases s with
  | nil => simp at h
  | cons c t =>
    have hmem : 10 ∈ (if c = 43 ∨ c = 45 then t else c :: t) := by
      by_cases hsign : c = 43 ∨ c = 45
      · rw [if_pos hsign]
        rcases List.mem_cons.mp h with h1 | h1
        · omega
        · exact h1
      · rw [if_neg hsign]; exact h
    obtain ⟨e, he⟩ := ParseUint_nondigit 10 (by omega) _ bitSize hmem
    exact ⟨e, by simp only [ParseInt, he]⟩

/-- With a single field the parser returns an error as soon as the field holds a
newline. -/
theorem parseSCPCopy_one_field (line : GoString) (hs : SplitN 32 line 3 = [line])
    (hnl : 10 ∈ (line.drop 1).take 4 ∨ line.length ≠ 5) :
    ∃ e, parseSCPCopy line = .error e := by
  by_cases hbad : line.length ≠ 5 ∨ line.head? ≠ some 67
  · exact ⟨_, by simp only [parseSCPCopy, hs, List.getElem?_cons_zero, if_pos hbad]; rfl⟩
  · have hmem : 10 ∈ (line.drop 1).take 4 := by
      rcases hnl with h | h
      · exact h
      · exact absurd (Or.inl h) hbad
    obtain ⟨e, he⟩ := ParseUint_nondigit 10 (by omega) _ 32 hmem
    exact ⟨_, by simp only [parseSCPCopy, hs, List.getElem?_cons_zero, if_neg hbad, he]; rfl⟩

/-- With two fields the parser returns an error as soon as the second holds a
newline. -/
theorem parseSCPCopy_two_fields (line a rest : GoString) (hs : SplitN 32 line 3 = [a, rest])
    (hnl : 10 ∈ rest) : ∃ e, parseSCPCopy line = .error e := by
  by_cases hbad : a.length ≠ 5 ∨ a.head? ≠ some 67
  · exact ⟨_, by simp only [parseSCPCopy, hs, List.getElem?_cons_zero, if_pos hbad]; rfl⟩
  · cases hm : ParseUint ((a.drop 1).take 4) 32 with
    | error e =>
      exact ⟨_, by simp only [parseSCPCopy, hs, List.getElem?_cons_zero, if_neg hbad, hm]; rfl⟩
    | ok m =>
      obtain ⟨e, he⟩ := ParseInt_newline rest 64 hnl
      exact ⟨_, by simp only [parseSCPCopy, hs, List.getElem?_cons_zero,
        List.getElem?_cons_succ, if_neg hbad, hm, he]; rfl⟩

/-- With three fields the parser returns an error or a triple. -/
theorem parseSCPCopy_three_fields (line a b f : GoString) (hs : SplitN 32 line 3 = [a, b, f]) :
    (∃ e, parseSCPCopy line = .error e) ∨ (∃ t, parseSCPCopy line = .ok t) := by
  by_cases hbad : a.length ≠ 5 ∨ a.head? ≠ some 67
  · exact Or.inl ⟨_, by simp only [parseSCPCopy, hs, List.getElem?_cons_zero, if_pos hbad]; rfl⟩
  · cases hm : ParseUint ((a.drop 1).take 4) 32 with
    | error e =>
      exact Or.inl ⟨_, by simp only [parseSCPCopy, hs, List.getElem?_cons_zero, if_neg hbad, hm]; rfl⟩
    | ok m =>
      cases hl : ParseInt b 64 with
      | error e =>
        exact Or.inl ⟨_, by simp only [parseSCPCopy, hs, List.getElem?_cons_zero,
          List.getElem?_cons_succ, if_neg hbad, hm, hl]; rfl⟩
      | ok l =>
        exact Or.inr ⟨_, by simp only [parseSCPCopy, hs, List.getElem?_cons_zero,
          List.getElem?_cons_succ, if_neg hbad, hm, hl]; rfl⟩

/-- On a line that ends with a newline the parser returns an error when the line
has fewer than three fields, and an error or a triple when it has three. -/
theorem parseSCPCopy_newline (body : GoString) :
    (∃ e, parseSCPCopy (body ++ [10]) = .error e)
      ∨ ((SplitN 32 (body ++ [10]) 3).length = 3 ∧ ∃ t, parseSCPCopy (body ++ [10]) = .ok t) := by
  by_cases hsp : 32 ∈ body ++ [10]
  · obtain ⟨a, rest, hline, ha⟩ := exists_first_sep 32 _ hsp
    have hs1 : SplitN 32 (body ++ [10]) 3 = a :: SplitN 32 rest 2 := by
      rw [hline, SplitN_append_sep 32 a rest 1 ha]
    have hrest : 10 ∈ rest := by
      rcases List.eq_nil_or_concat rest with hr | ⟨r, x, hr⟩
      · subst hr
        have := List.append_inj_right' hline rfl
        simp at this
      · subst hr
        have h2 : body ++ [10] = (a ++ 32 :: r) ++ [x] := by rw [hline]; simp
        have := List.append_inj_right' h2 rfl
        simp only [List.cons.injEq, and_true] at this
        simp [← this]
    by_cases hsp2 : 32 ∈ rest
    · obtain ⟨b, f, hr, hb⟩ := exists_first_sep 32 _ hsp2
      have hs : SplitN 32 (body ++ [10]) 3 = [a, b, f] := by
        rw [hs1, hr, SplitN_append_sep 32 b f 0 hb]
        simp [SplitN]
      rcases parseSCPCopy_three_fields _ a b f hs with h | h
      · exact Or.inl h
      · exact Or.inr ⟨by rw [hs]; rfl, h⟩
    · have hs : SplitN 32 (body ++ [10]) 3 = [a, rest] := by
        rw [hs1, SplitN_of_not_mem 32 rest 1 hsp2]
      exact Or.inl (parseSCPCopy_two_fields _ a rest hs hrest)
  · have hs : SplitN 32 (body ++ [10]) 3 = [body ++ [10]] := SplitN_of_not_mem 32 _ 2 hsp
    refine Or.inl (parseSCPCopy_one_field _ hs ?_)
    by_cases hlen : (body ++ [10]).length ≠ 5
    · exact Or.inr hlen
    · left
      have hb : body.length = 4 := by
        simp only [List.length_append, List.length_singleton, ne_eq, not_not] at hlen
        omega
      have h1 : List.drop 1 (body ++ [10]) = List.drop 1 body ++ [10] := by
        rw [List.drop_append_of_le_length (by omega)]
      rw [h1, List.take_of_length_le (by simp; omega)]
      simp

/-- C19: for every line the transfer loop hands to `parseSCPCopy`, that is every
line `ReadString` returns (it ends with the newline and holds no other), the call
never indexes the token list out of range: it returns an error or a triple, and
when the line has fewer than three space-separated fields it returns an error. -/
theorem C19_parseSCPCopy_never_faults_on_read_lines (chunks later : List (List Nat))
    (line : GoString) (hread : ReadString chunks [] = some (line, later)) :
    parseSCPCopy line ≠ .fault
      ∧ ((∃ e, parseSCPCopy line = .error e) ∨ (∃ t, parseSCPCopy line = .ok t))
      ∧ ((SplitN 32 line 3).length < 3 → ∃ e, parseSCPCopy line = .error e) := by
  obtain ⟨body, hbody⟩ := ReadString_ends chunks [] line later hread
  subst hbody
  rcases parseSCPCopy_newline body with ⟨e, he⟩ | ⟨h3, t, ht⟩
  · exact ⟨by rw [he]; simp, Or.inl ⟨e, he⟩, fun _ => ⟨e, he⟩⟩
  · exact ⟨by rw [ht]; simp, Or.inr ⟨t, ht⟩, fun hlt => by omega⟩

/-- C19 at the two-field record `C0644 5`, read with its newline. -/
theorem C19_parseSCPCopy_never_faults_on_read_lines_witness :
    ReadString [ascii "C0644 5\n"] [] = some (ascii "C0644 5\n", [])
      ∧ parseSCPCopy (ascii "C0644 5\n") ≠ .fault
      ∧ ((∃ e, parseSCPCopy (ascii "C0644 5\n") = .error e)
          ∨ (∃ t, parseSCPCopy (ascii "C0644 5\n") = .ok t))
      ∧ ((SplitN 32 (ascii "C0644 5\n") 3).length < 3
          → ∃ e, parseSCPCopy (ascii "C0644 5\n") = .error e) :=
  ⟨by decide,
    C19_parseSCPCopy_never_faults_on_read_lines [ascii "C0644 5\n"] [] (ascii "C0644 5\n")
      (by decide)⟩

/-! ## The amended claim on malformed lines -/

/-- A numeral the unsigned parser accepts is a non-empty run of decimal digits. -/
theorem ParseUint_ok_digits (s : GoString) (bitSize m : Nat) (h : ParseUint s bitSize = .ok m) :
    s ≠ [] ∧ ∀ c ∈ s, 48 ≤ c ∧ c ≤ 57 := by
  refine ⟨?_, ?_⟩
  · intro hs
    rw [ParseUint, if_pos hs] at h
    cases h
  · intro c hc
    by_contra hnd
    obtain ⟨e, he⟩ := ParseUint_nondigit c hnd s bitSize hc
    rw [he] at h
    cases h

/-- A numeral the signed parser accepts is a decimal digit or a sign followed by
decimal digits. -/
theorem ParseInt_ok_shape (s : GoString) (bitSize : Nat) (l : Int)
    (h : ParseInt s bitSize = .ok l) :
    (∃ c, s.head? = some c ∧ ((48 ≤ c ∧ c ≤ 57) ∨ c = 43 ∨ c = 45))
      ∧ ∀ c ∈ s.drop 1, 48 ≤ c ∧ c ≤ 57 := by
  cases s with
  | nil => simp [ParseInt] at h
  | cons c t =>
    cases hu : ParseUint (if c = 43 ∨ c = 45 then t else c :: t) bitSize with
    | error e => simp only [ParseInt, hu] at h; cases h
    | ok un =>
      obtain ⟨_, hdig⟩ := ParseUint_ok_digits _ bitSize un hu
      by_cases hsign : c = 43 ∨ c = 45
      · rw [if_pos hsign] at hdig
        exact ⟨⟨c, rfl, Or.inr hsign⟩, by simpa using hdig⟩
      · rw [if_neg hsign] at hdig
        refine ⟨⟨c, rfl, Or.inl (hdig c (by simp))⟩, ?_⟩
        intro x hx
        exact hdig x (by simp only [List.drop_succ_cons, List.drop_zero] at hx; simp [hx])

/-- With three fields, what the parser accepts has a first field of five bytes
that starts with the letter C, and both numerals are accepted by their parsers. -/
theorem parseSCPCopy_three_fields_ok (line a b f : GoString) (t : Nat × Int × GoString)
    (hs : SplitN 32 line 3 = [a, b, f]) (hok : parseSCPCopy line = .ok t) :
    a.length = 5 ∧ a.head? = some 67
      ∧ ∃ m l, ParseUint ((a.drop 1).take 4) 32 = .ok m ∧ ParseInt b 64 = .ok l
          ∧ t = (m, l, f) := by
  by_cases hbad : a.length ≠ 5 ∨ a.head? ≠ some 67
  · simp only [parseSCPCopy, hs, List.getElem?_cons_zero, if_pos hbad] at hok
    cases hok
  · have h5 : a.length = 5 := by
      by_contra hc; exact hbad (Or.inl hc)
    have hC : a.head? = some 67 := by
      by_contra hc; exact hbad (Or.inr hc)
    cases hm : ParseUint ((a.drop 1).take 4) 32 with
    | error e =>
      simp only [parseSCPCopy, hs, List.getElem?_cons_zero, if_neg hbad, hm] at hok
      cases hok
    | ok m =>
      cases hl : ParseInt b 64 with
      | error e =>
        simp only [parseSCPCopy, hs, List.getElem?_cons_zero, List.getElem?_cons_succ,
          if_neg hbad, hm, hl] at hok
        cases hok
      | ok l =>
        simp only [parseSCPCopy, hs, List.getElem?_cons_zero, List.getElem?_cons_succ,
          if_neg hbad, hm, hl, Res.ok.injEq] at hok
        exact ⟨h5, hC, m, l, rfl, rfl, hok.symm⟩

/-- C9, amended: for every line that ends with a newline, as every line the
transfer loop reads does, `parseSCPCopy` returns an error value when the line
splits on spaces into fewer than three fields; and more generally it returns an
error value unless the line is well formed, that is unless it has three fields,
the first of exactly five bytes starting with the letter C and followed by
decimal digits only, the second a decimal digit or a sign followed by decimal
digits only, in which case it returns a triple whose file name is the third
field. -/
theorem C9_malformed_terminated_line_is_error (body : GoString) :
    ((SplitN 32 (body ++ [10]) 3).length < 3 → ∃ e, parseSCPCopy (body ++ [10]) = .error e)
      ∧ ((∃ e, parseSCPCopy (body ++ [10]) = .error e)
          ∨ ∃ t0 t1 f m l, SplitN 32 (body ++ [10]) 3 = [t0, t1, f]
              ∧ t0.length = 5 ∧ t0.head? = some 67
              ∧ (∀ c ∈ t0.drop 1, 48 ≤ c ∧ c ≤ 57)
              ∧ (∃ c, t1.head? = some c ∧ ((48 ≤ c ∧ c ≤ 57) ∨ c = 43 ∨ c = 45))
              ∧ (∀ c ∈ t1.drop 1, 48 ≤ c ∧ c ≤ 57)
              ∧ parseSCPCopy (body ++ [10]) = .ok (m, l, f)) := by
  rcases parseSCPCopy_newline body with ⟨e, he⟩ | ⟨h3, t, ht⟩
  · exact ⟨fun _ => ⟨e, he⟩, Or.inl ⟨e, he⟩⟩
  · refine ⟨fun hlt => by omega, Or.inr ?_⟩
    obtain ⟨t0, t1, f, hs⟩ : ∃ t0 t1 f, SplitN 32 (body ++ [10]) 3 = [t0, t1, f] := by
      match hsp : SplitN 32 (body ++ [10]) 3, h3 with
      | [t0, t1, f], _ => exact ⟨t0, t1, f, rfl⟩
    obtain ⟨h5, hC, m, l, hm, hl, htl⟩ := parseSCPCopy_three_fields_ok _ t0 t1 f t hs ht
    obtain ⟨_, hdig⟩ := ParseUint_ok_digits _ 32 m hm
    obtain ⟨hhead, htail⟩ := ParseInt_ok_shape t1 64 l hl
    have htake : List.take 4 (List.drop 1 t0) = List.drop 1 t0 :=
      List.take_of_length_le (by simp; omega)
    rw [htake] at hdig
    exact ⟨t0, t1, f, m, l, hs, h5, hC, hdig, hhead, htail, by rw [ht, htl]⟩

/-- C9 amended, at the two-field record `C0644 5` with its newline. -/
theorem C9_malformed_terminated_line_is_error_witness :
    (SplitN 32 (ascii "C0644 5" ++ [10]) 3).length < 3
      ∧ ∃ e, parseSCPCopy (ascii "C0644 5" ++ [10]) = .error e :=
  ⟨by decide, (C9_malformed_terminated_line_is_error (ascii "C0644 5")).1 (by decide)⟩

end Scp
